import Mathlib

/-!
Verification of the Connections / SpatialPooler core of the htm.core fork.

The definitions below are a shallow embedding of
`src/htm/algorithms/Connections.cpp` and `src/htm/algorithms/SpatialPooler.cpp`.
Conventions:
* `Permanence` (a 32-bit float in the source) is modelled as `ℚ` with exact
  arithmetic; clamping bounds `minPermanence = 0`, `maxPermanence = 1` come
  from the data model (permanences live in `[0,1]`).
* Handle types `CellIdx`, `Segment`, `Synapse` (32-bit unsigned in the source)
  are modelled as `ℕ`; the cached per-segment counter `numConnected` (an
  unsigned integer in the source) uses wrap-around arithmetic modulo `2^32`.
* `std::vector` becomes `List`; reading `v[i]` becomes `List.getD` (an
  out-of-range access is undefined behaviour in the source; the theorems
  always carry the bounds needed to stay in range), writing becomes
  `List.set` (a no-op out of range).
* The presynaptic maps (`std::map<CellIdx, std::vector<...>>`) become
  association lists with `mapGetD` / `mapSet` / `mapErase`.  `operator[]`
  on a missing key default-inserts an empty vector in the source; an empty
  entry and a missing entry are observationally equal for every operation
  modelled here, so reads are modelled with `mapGetD` (default `[]`).
* Event handlers (`eventHandlers_`, `subscribe`, `unsubscribe`) perform
  external callbacks only and are not modelled.
-/

namespace Htm

/-- Permanence values: 32-bit floats in `[0,1]` in the source, modelled
exactly as rationals. -/
abbrev Permanence : Type := ℚ

/-- Lower clamping bound for permanences (`htm::minPermanence`, from the
data model: permanences live in `[0,1]`; the header defining the constant
is not among the provided sources). -/
def minPermanence : Permanence := 0

/-- Upper clamping bound for permanences (`htm::maxPermanence`). -/
def maxPermanence : Permanence := 1

/-- Boundary-resolution constant `htm::Epsilon`.  The defining header is not
among the provided sources; the spec fixes it as "a small positive constant
... (nominally 1e-6)". -/
def Epsilon : Permanence := mkRat 1 1000000

/-- Wrap-around increment of an unsigned 32-bit counter. -/
def inc32 (n : ℕ) : ℕ := (n + 1) % 4294967296

/-- Wrap-around decrement of an unsigned 32-bit counter. -/
def dec32 (n : ℕ) : ℕ := (n + 4294967295) % 4294967296

/-- `SynapseData` (Connections.hpp is not among the sources; the fields are
exactly the ones the implementation reads and writes: presynaptic cell,
owning segment, permanence, and the back-index `presynapticMapIndex_` into
the presynaptic map). -/
structure SynapseData where
  presynapticCell : ℕ
  segment : ℕ
  permanence : Permanence
  presynapticMapIndex : ℕ
deriving Repr, DecidableEq, Inhabited

/-- `SegmentData`: owning cell, owned synapses, cached connected count. -/
structure SegmentData where
  cell : ℕ
  synapses : List ℕ := []
  numConnected : ℕ := 0
deriving Repr, DecidableEq, Inhabited

/-- `CellData`: the segments owned by one cell. -/
structure CellData where
  segments : List ℕ := []
deriving Repr, DecidableEq, Inhabited

/-- Association-list model of `std::map<CellIdx, std::vector<UInt32>>`:
lookup with default `[]`. -/
def mapGetD (m : List (ℕ × List ℕ)) (k : ℕ) : List ℕ :=
  ((m.find? (fun e => e.1 == k)).map Prod.snd).getD []

/-- Key-membership test (`count(key)` in the source). -/
def mapContains (m : List (ℕ × List ℕ)) (k : ℕ) : Bool :=
  (m.find? (fun e => e.1 == k)).isSome

/-- Write a key's value (insert or overwrite). -/
def mapSet (m : List (ℕ × List ℕ)) (k : ℕ) (v : List ℕ) : List (ℕ × List ℕ) :=
  if mapContains m k then m.map (fun e => if e.1 == k then (k, v) else e)
  else m ++ [(k, v)]

/-- Erase a key (`erase(key)` in the source). -/
def mapErase (m : List (ℕ × List ℕ)) (k : ℕ) : List (ℕ × List ℕ) :=
  m.filter (fun e => e.1 != k)

/-- The `Connections` state (Connections.hpp / Connections.cpp).  Field
names follow the source with the trailing underscore dropped. -/
structure Connections where
  cells : List CellData
  segments : List SegmentData
  destroyedSegments : List ℕ
  synapses : List SynapseData
  destroyedSynapses : List ℕ
  potentialSynapsesForPresynapticCell : List (ℕ × List ℕ)
  connectedSynapsesForPresynapticCell : List (ℕ × List ℕ)
  potentialSegmentsForPresynapticCell : List (ℕ × List ℕ)
  connectedSegmentsForPresynapticCell : List (ℕ × List ℕ)
  connectedThreshold : Permanence
  iteration : ℕ
  timeseries : Bool
  previousUpdates : List Permanence
  currentUpdates : List Permanence
  prunedSyns : ℕ
  prunedSegs : ℕ
deriving Repr, DecidableEq, Inhabited

namespace Connections

/-- `Connections::initialize` (Connections.cpp:46-66): `numCells` empty
cells and the internal threshold `connectedThreshold - Epsilon`.  (Named
`init` because `initialize` is reserved in Lean.) -/
def init (numCells : ℕ) (connectedThreshold : Permanence) (timeseries : Bool) :
    Connections where
  cells := List.replicate numCells {}
  segments := []
  destroyedSegments := []
  synapses := []
  destroyedSynapses := []
  potentialSynapsesForPresynapticCell := []
  connectedSynapsesForPresynapticCell := []
  potentialSegmentsForPresynapticCell := []
  connectedSegmentsForPresynapticCell := []
  connectedThreshold := connectedThreshold - Epsilon
  iteration := 0
  timeseries := timeseries
  previousUpdates := []
  currentUpdates := []
  prunedSyns := 0
  prunedSegs := 0

/-- `Connections::dataForSynapse`. -/
def dataForSynapse (conn : Connections) (synapse : ℕ) : SynapseData :=
  conn.synapses.getD synapse default

/-- `Connections::synapsesForSegment`. -/
def synapsesForSegment (conn : Connections) (segment : ℕ) : List ℕ :=
  (conn.segments.getD segment default).synapses

/-- `Connections::segmentsForCell`. -/
def segmentsForCell (conn : Connections) (cell : ℕ) : List ℕ :=
  (conn.cells.getD cell default).segments

/-- `Connections::numCells`. -/
def numCells (conn : Connections) : ℕ := conn.cells.length

/-- A live segment handle: allocated and not on the free-list. -/
def liveSegment (conn : Connections) (segment : ℕ) : Prop :=
  segment < conn.segments.length ∧ segment ∉ conn.destroyedSegments

instance (conn : Connections) (segment : ℕ) : Decidable (conn.liveSegment segment) := by
  unfold liveSegment; infer_instance

/-- `Connections::synapseExists_(synapse, fast=true)` (Connections.cpp:210-233),
as executed in a release build: bounds check plus the `permanence != -1`
sentinel test. -/
def synapseExistsFast (conn : Connections) (synapse : ℕ) : Bool :=
  synapse < conn.synapses.length && ((conn.dataForSynapse synapse).permanence != -1)

/-- `Connections::removeSynapseFromPresynapticMap_` (Connections.cpp:240-256):
move the last list entry over position `index` and pop, updating the moved
synapse's back-index.  The source asserts the lists are non-empty; on empty
lists (unreachable from well-formed states) this model changes nothing. -/
def removeSynapseFromPresynapticMap (syns : List SynapseData) (index : ℕ)
    (preSynapses preSegments : List ℕ) :
    List SynapseData × List ℕ × List ℕ :=
  match preSynapses.getLast?, preSegments.getLast? with
  | some mv, some lastSeg =>
    let sd := syns.getD mv default
    (syns.set mv { sd with presynapticMapIndex := index },
     (preSynapses.set index mv).dropLast,
     (preSegments.set index lastSeg).dropLast)
  | _, _ => (syns, preSynapses, preSegments)

/-- `Connections::updateSynapsePermanence` (Connections.cpp:331-383): clamp
to `[0,1]`, write, and if the connected status changed move the synapse
between the presynaptic maps and adjust the segment's `numConnected`. -/
def updateSynapsePermanence (conn : Connections) (synapse : ℕ) (permanence : Permanence) :
    Connections :=
  let p := max (min permanence maxPermanence) minPermanence
  let sd := conn.dataForSynapse synapse
  let before : Bool := decide (conn.connectedThreshold ≤ sd.permanence)
  let after : Bool := decide (conn.connectedThreshold ≤ p)
  let conn' := { conn with synapses := conn.synapses.set synapse { sd with permanence := p } }
  if before = after then conn'
  else
    let presyn := sd.presynapticCell
    let segment := sd.segment
    let segData := conn'.segments.getD segment default
    if after then
      let segs' := conn'.segments.set segment
        { segData with numConnected := inc32 segData.numConnected }
      let conn'' := { conn' with segments := segs' }
      let res := removeSynapseFromPresynapticMap conn''.synapses sd.presynapticMapIndex
        (mapGetD conn''.potentialSynapsesForPresynapticCell presyn)
        (mapGetD conn''.potentialSegmentsForPresynapticCell presyn)
      let cSyn := mapGetD conn''.connectedSynapsesForPresynapticCell presyn
      let cSeg := mapGetD conn''.connectedSegmentsForPresynapticCell presyn
      let sd2 := res.1.getD synapse default
      { conn'' with
        synapses := res.1.set synapse { sd2 with presynapticMapIndex := cSyn.length },
        potentialSynapsesForPresynapticCell :=
          mapSet conn''.potentialSynapsesForPresynapticCell presyn res.2.1,
        potentialSegmentsForPresynapticCell :=
          mapSet conn''.potentialSegmentsForPresynapticCell presyn res.2.2,
        connectedSynapsesForPresynapticCell :=
          mapSet conn''.connectedSynapsesForPresynapticCell presyn (cSyn ++ [synapse]),
        connectedSegmentsForPresynapticCell :=
          mapSet conn''.connectedSegmentsForPresynapticCell presyn (cSeg ++ [segment]) }
    else
      let segs' := conn'.segments.set segment
        { segData with numConnected := dec32 segData.numConnected }
      let conn'' := { conn' with segments := segs' }
      let res := removeSynapseFromPresynapticMap conn''.synapses sd.presynapticMapIndex
        (mapGetD conn''.connectedSynapsesForPresynapticCell presyn)
        (mapGetD conn''.connectedSegmentsForPresynapticCell presyn)
      let pSyn := mapGetD conn''.potentialSynapsesForPresynapticCell presyn
      let pSeg := mapGetD conn''.potentialSegmentsForPresynapticCell presyn
      let sd2 := res.1.getD synapse default
      { conn'' with
        synapses := res.1.set synapse { sd2 with presynapticMapIndex := pSyn.length },
        connectedSynapsesForPresynapticCell :=
          mapSet conn''.connectedSynapsesForPresynapticCell presyn res.2.1,
        connectedSegmentsForPresynapticCell :=
          mapSet conn''.connectedSegmentsForPresynapticCell presyn res.2.2,
        potentialSynapsesForPresynapticCell :=
          mapSet conn''.potentialSynapsesForPresynapticCell presyn (pSyn ++ [synapse]),
        potentialSegmentsForPresynapticCell :=
          mapSet conn''.potentialSegmentsForPresynapticCell presyn (pSeg ++ [segment]) }

/-- `Connections::createSynapse` (Connections.cpp:141-207).  If a synapse to
`presynapticCell` already exists on the segment, return it, raising its
permanence to the argument when that is larger.  Otherwise allocate a handle
(free-list first), place it in the potential map with starting permanence
`connectedThreshold - 1`, and finish with `updateSynapsePermanence`. -/
def createSynapse (conn : Connections) (segment presynapticCell : ℕ)
    (permanence : Permanence) : ℕ × Connections :=
  match (conn.synapsesForSegment segment).find?
      (fun syn => (conn.dataForSynapse syn).presynapticCell == presynapticCell) with
  | some syn =>
    if (conn.dataForSynapse syn).permanence < permanence then
      (syn, conn.updateSynapsePermanence syn permanence)
    else (syn, conn)
  | none =>
    let alloc : ℕ × Connections :=
      match conn.destroyedSynapses.getLast? with
      | some s => (s, { conn with destroyedSynapses := conn.destroyedSynapses.dropLast })
      | none => (conn.synapses.length, { conn with synapses := conn.synapses ++ [default] })
    let synapse := alloc.1
    let c1 := alloc.2
    let pSyn := mapGetD c1.potentialSynapsesForPresynapticCell presynapticCell
    let pSeg := mapGetD c1.potentialSegmentsForPresynapticCell presynapticCell
    let sd : SynapseData :=
      { presynapticCell := presynapticCell, segment := segment,
        permanence := c1.connectedThreshold - 1, presynapticMapIndex := pSyn.length }
    let c2 := { c1 with
      synapses := c1.synapses.set synapse sd,
      potentialSynapsesForPresynapticCell :=
        mapSet c1.potentialSynapsesForPresynapticCell presynapticCell (pSyn ++ [synapse]),
      potentialSegmentsForPresynapticCell :=
        mapSet c1.potentialSegmentsForPresynapticCell presynapticCell (pSeg ++ [segment]) }
    let segD := c2.segments.getD segment default
    let segs' := c2.segments.set segment { segD with synapses := segD.synapses ++ [synapse] }
    let c3 := { c2 with segments := segs' }
    (synapse, c3.updateSynapsePermanence synapse permanence)

/-- Remove the first occurrence of `y` by overwriting it with the last
element and popping (the loop at Connections.cpp:319-325). -/
def swapRemoveFirst (l : List ℕ) (y : ℕ) : List ℕ :=
  match l.findIdx? (fun x => x == y), l.getLast? with
  | some i, some lst => (l.set i lst).dropLast
  | _, _ => l

/-- `Connections::destroySynapse` (Connections.cpp:283-328).  Faithful to the
source, which — despite the comment in `synapseExists_` — never writes the
`-1` sentinel permanence into the destroyed slot. -/
def destroySynapse (conn : Connections) (synapse : ℕ) : Connections :=
  if ¬ (conn.synapseExistsFast synapse) then conn
  else
    let sd := conn.dataForSynapse synapse
    let segment := sd.segment
    let presynCell := sd.presynapticCell
    let segData := conn.segments.getD segment default
    let conn' :=
      if conn.connectedThreshold ≤ sd.permanence then
        let segs' := conn.segments.set segment
          { segData with numConnected := dec32 segData.numConnected }
        let c1 := { conn with segments := segs' }
        let res := removeSynapseFromPresynapticMap c1.synapses sd.presynapticMapIndex
          (mapGetD c1.connectedSynapsesForPresynapticCell presynCell)
          (mapGetD c1.connectedSegmentsForPresynapticCell presynCell)
        if res.2.1.isEmpty then
          { c1 with
            synapses := res.1,
            connectedSynapsesForPresynapticCell :=
              mapErase c1.connectedSynapsesForPresynapticCell presynCell,
            connectedSegmentsForPresynapticCell :=
              mapErase c1.connectedSegmentsForPresynapticCell presynCell }
        else
          { c1 with
            synapses := res.1,
            connectedSynapsesForPresynapticCell :=
              mapSet c1.connectedSynapsesForPresynapticCell presynCell res.2.1,
            connectedSegmentsForPresynapticCell :=
              mapSet c1.connectedSegmentsForPresynapticCell presynCell res.2.2 }
      else
        let res := removeSynapseFromPresynapticMap conn.synapses sd.presynapticMapIndex
          (mapGetD conn.potentialSynapsesForPresynapticCell presynCell)
          (mapGetD conn.potentialSegmentsForPresynapticCell presynCell)
        if res.2.1.isEmpty then
          { conn with
            synapses := res.1,
            potentialSynapsesForPresynapticCell :=
              mapErase conn.potentialSynapsesForPresynapticCell presynCell,
            potentialSegmentsForPresynapticCell :=
              mapErase conn.potentialSegmentsForPresynapticCell presynCell }
        else
          { conn with
            synapses := res.1,
            potentialSynapsesForPresynapticCell :=
              mapSet conn.potentialSynapsesForPresynapticCell presynCell res.2.1,
            potentialSegmentsForPresynapticCell :=
              mapSet conn.potentialSegmentsForPresynapticCell presynCell res.2.2 }
    let segData' := conn'.segments.getD segment default
    let segs' := conn'.segments.set segment
      { segData' with synapses := swapRemoveFirst segData'.synapses synapse }
    let conn'' := { conn' with segments := segs' }
    { conn'' with destroyedSynapses := conn''.destroyedSynapses ++ [synapse] }

/-- The synapse-destruction loop of `Connections::destroySegment`
(Connections.cpp:269-270): destroy the back synapse until the list is empty.
The fuel equals the list length at entry; each iteration on a well-formed
state removes exactly one synapse, so the fuel bound is never the reason the
loop stops. -/
def destroyAllSynapsesOnSegment : Connections → ℕ → ℕ → Connections
  | conn, _, 0 => conn
  | conn, segment, Nat.succ fuel =>
    match (conn.synapsesForSegment segment).getLast? with
    | none => conn
    | some y => destroyAllSynapsesOnSegment (conn.destroySynapse y) segment fuel

/-- `Connections::destroySegment` (Connections.cpp:259-280): destroy all the
segment's synapses, unlink it from its cell, push it on the free-list. -/
def destroySegment (conn : Connections) (segment : ℕ) : Connections :=
  let c1 := conn.destroyAllSynapsesOnSegment segment (conn.synapsesForSegment segment).length
  let segData := c1.segments.getD segment default
  let cellData := c1.cells.getD segData.cell default
  { c1 with
    cells := c1.cells.set segData.cell { segments := cellData.segments.erase segment },
    destroyedSegments := c1.destroyedSegments ++ [segment] }

/-- The usefulness heuristic of `Connections::pruneSegment_`
(Connections.cpp:91-95): the sum of squared permanences over the segment. -/
def segmentUsefulness (conn : Connections) (segment : ℕ) : Permanence :=
  (conn.synapsesForSegment segment).foldl
    (fun h syn =>
      h + (conn.dataForSynapse syn).permanence * (conn.dataForSynapse syn).permanence) 0

/-- The running-minimum step of `Connections::pruneSegment_`
(Connections.cpp:96-100): replace the incumbent when the candidate has a
strictly smaller heuristic, or an equal heuristic and a smaller handle. -/
def pruneSelect (conn : Connections) (acc : Option ℕ) (segment : ℕ) : Option ℕ :=
  match acc with
  | none => some segment
  | some b =>
    if conn.segmentUsefulness segment < conn.segmentUsefulness b ∨
        (conn.segmentUsefulness segment = conn.segmentUsefulness b ∧ segment < b) then
      some segment
    else some b

/-- `Connections::pruneSegment_` (Connections.cpp:82-103): destroy the
cell's least useful segment; on ties the lower handle loses.  (The running
minimum starts at `DBL_MAX` with the sentinel handle in the source and the
first segment always replaces it; modelled with an `Option` accumulator.
A cell with no segments is unreachable from `createSegment`.) -/
def pruneSegment (conn : Connections) (cell : ℕ) : Connections :=
  match (conn.segmentsForCell cell).foldl conn.pruneSelect none with
  | none => conn
  | some v => conn.destroySegment v

/-- The `while (numSegments(cell) >= maxSegmentsPerCell)` loop of
`Connections::createSegment` (Connections.cpp:111-113).  Fuel equals the
cell's segment count at entry; each prune on a well-formed state removes
one segment of the cell, so the fuel never runs out before the condition
fails. -/
def pruneLoop : Connections → ℕ → ℕ → ℕ → Connections
  | conn, _, _, 0 => conn
  | conn, cell, maxSegs, Nat.succ fuel =>
    if maxSegs ≤ (conn.segmentsForCell cell).length then
      pruneLoop (conn.pruneSegment cell) cell maxSegs fuel
    else conn

/-- The allocation tail of `Connections::createSegment`
(Connections.cpp:116-137): take a handle from the free-list (else a fresh
one), store fresh `SegmentData`, and append to the cell's segment list. -/
def allocSegment (conn : Connections) (cell : ℕ) : ℕ × Connections :=
  let segmentData : SegmentData := { cell := cell, synapses := [], numConnected := 0 }
  let alloc : ℕ × Connections :=
    match conn.destroyedSegments.getLast? with
    | some s => (s, { conn with
        destroyedSegments := conn.destroyedSegments.dropLast,
        segments := conn.segments.set s segmentData })
    | none => (conn.segments.length, { conn with segments := conn.segments ++ [segmentData] })
  let c1 := alloc.2
  let cd := c1.cells.getD cell default
  (alloc.1, { c1 with cells := c1.cells.set cell { segments := cd.segments ++ [alloc.1] } })

/-- `Connections::createSegment` (Connections.cpp:105-138).  The source
traps (`NTA_CHECK`) on `maxSegmentsPerCell == 0` or an out-of-range cell;
those calls are modelled as leaving the state unchanged. -/
def createSegment (conn : Connections) (cell maxSegmentsPerCell : ℕ) : ℕ × Connections :=
  if maxSegmentsPerCell = 0 ∨ conn.numCells ≤ cell then (0, conn)
  else
    let c1 := conn.pruneLoop cell maxSegmentsPerCell (conn.segmentsForCell cell).length
    c1.allocSegment cell

/-- `Connections::computeActivity` (connected-only overload,
Connections.cpp:431-452): per-segment counts of active connected synapses,
accumulated by walking `connectedSegmentsForPresynapticCell` for every
active presynaptic cell.  Returns the counts and the updated state
(iteration counter, time-series buffer swap). -/
def computeActivity (conn : Connections) (activePresynapticCells : List ℕ) (learn : Bool) :
    List ℕ × Connections :=
  let conn := if learn then { conn with iteration := conn.iteration + 1 } else conn
  let conn :=
    if conn.timeseries then
      { conn with previousUpdates := conn.currentUpdates, currentUpdates := [] }
    else conn
  let counts := activePresynapticCells.foldl
    (fun acc cell =>
      (mapGetD conn.connectedSegmentsForPresynapticCell cell).foldl
        (fun acc2 segment => acc2.set segment (acc2.getD segment 0 + 1)) acc)
    (List.replicate conn.segments.length 0)
  (counts, conn)

/-- `std::vector::resize(n, v)` on a list. -/
def listResize (l : List Permanence) (n : ℕ) (v : Permanence) : List Permanence :=
  l.take n ++ List.replicate (n - l.length) v

/-- The per-synapse body of the first loop of `Connections::adaptSegment`
(Connections.cpp:496-523): compute the Hebbian update from the dense input,
defer the synapse for destruction when the new permanence would fall below
`minPermanence + Epsilon`, otherwise write it (in time-series mode only
when it differs from the previous update, recording it in
`currentUpdates`). -/
def adaptStep (inputDense : List Bool) (increment decrement : Permanence)
    (pruneZeroSynapses : Bool) (acc : Connections × List ℕ) (synapse : ℕ) :
    Connections × List ℕ :=
  let c := acc.1
  let sd := c.dataForSynapse synapse
  let update := if inputDense.getD sd.presynapticCell false then increment else -decrement
  if pruneZeroSynapses ∧ sd.permanence + update < minPermanence + Epsilon then
    ({ c with prunedSyns := c.prunedSyns + 1 }, acc.2 ++ [synapse])
  else
    if c.timeseries then
      let c' :=
        if update ≠ c.previousUpdates.getD synapse 0 then
          c.updateSynapsePermanence synapse (sd.permanence + update)
        else c
      ({ c' with currentUpdates := c'.currentUpdates.set synapse update }, acc.2)
    else
      (c.updateSynapsePermanence synapse (sd.permanence + update), acc.2)

/-- `Connections::adaptSegment` (Connections.cpp:481-540): per-synapse
Hebbian update against the dense input, deferred pruning of synapses whose
new permanence falls below `minPermanence + Epsilon`, and destruction of the
segment when fewer than `segmentThreshold` synapses remain. -/
def adaptSegment (conn : Connections) (segment : ℕ) (inputDense : List Bool)
    (increment decrement : Permanence) (pruneZeroSynapses : Bool)
    (segmentThreshold : ℕ) : Connections :=
  let conn :=
    if conn.timeseries then
      { conn with
        previousUpdates := listResize conn.previousUpdates conn.synapses.length minPermanence,
        currentUpdates := listResize conn.currentUpdates conn.synapses.length minPermanence }
    else conn
  let pass := (conn.synapsesForSegment segment).foldl
    (adaptStep inputDense increment decrement pruneZeroSynapses) (conn, [])
  let c2 := pass.2.foldl (fun c y => c.destroySynapse y) pass.1
  if pruneZeroSynapses ∧ (c2.synapsesForSegment segment).length < segmentThreshold then
    { c2.destroySegment segment with prunedSegs := c2.prunedSegs + 1 }
  else c2

/-- The body of `adaptSegment` after the time-series resize, specialised
to `pruneZeroSynapses = true`: the update/defer loop, the deferred
destruction loop, and the final segment-destruction test.
`adaptSegment` is definitionally this on the resized state. -/
def adaptTail (conn : Connections) (segment : ℕ) (inputDense : List Bool)
    (increment decrement : Permanence) (segmentThreshold : ℕ) : Connections :=
  let pass := (conn.synapsesForSegment segment).foldl
    (adaptStep inputDense increment decrement true) (conn, [])
  let c2 := pass.2.foldl (fun c y => c.destroySynapse y) pass.1
  if (true : Bool) ∧ (c2.synapsesForSegment segment).length < segmentThreshold then
    { c2.destroySegment segment with prunedSegs := c2.prunedSegs + 1 }
  else c2

/-- `Connections::bumpSegment` (Connections.cpp:652-657): add `delta` to
every synapse on the segment through `updateSynapsePermanence`. -/
def bumpSegment (conn : Connections) (segment : ℕ) (delta : Permanence) : Connections :=
  (conn.synapsesForSegment segment).foldl
    (fun c syn => c.updateSynapsePermanence syn ((c.dataForSynapse syn).permanence + delta))
    conn

/-- The `n`-th greatest permanence on a list of synapse handles (the value
`std::nth_element` places at position `n - 1` under the descending
comparator, Connections.cpp:583-590). -/
def nthGreatestPermanence (conn : Connections) (synapses : List ℕ) (n : ℕ) : Permanence :=
  ((synapses.map (fun syn => (conn.dataForSynapse syn).permanence)).insertionSort
    (fun a b => b ≤ a)).getD (n - 1) 0

/-- `Connections::raisePermanencesToThreshold` (Connections.cpp:548-596).
The `std::nth_element` call also permutes the segment's synapse list by an
implementation-defined amount; that reordering of an unchanged multiset is
not modelled (no observable behaviour in this file depends on it). -/
def raisePermanencesToThreshold (conn : Connections) (segment segmentThreshold : ℕ) :
    Connections :=
  if segmentThreshold = 0 then conn
  else
    let segData := conn.segments.getD segment default
    if segmentThreshold ≤ segData.numConnected then conn
    else if segData.synapses.isEmpty then conn
    else
      let threshold := min segmentThreshold segData.synapses.length
      let nth := conn.nthGreatestPermanence segData.synapses threshold
      let increment := conn.connectedThreshold - nth
      if increment ≤ 0 then conn
      else conn.bumpSegment segment increment

end Connections

/-- Density cap applied when `numActiveColumnsPerInhArea` is configured
(`MAX_LOCALAREADENSITY`).  The header defining it is not among the provided
sources; no theorem below depends on its value (the claims exercising the
density computation go through `localAreaDensity`).  The upstream project
uses `0.5`. -/
def MAX_LOCALAREADENSITY : ℚ := mkRat 1 2

/-- `getAreaND_` (SpatialPooler.cpp:835-847): the hyper-cube volume
`∏ min(dim, 2·radius+1)`.  The source computes the product in `Real` and
truncates back to `UInt`; for the natural-number inputs involved this is
the exact natural product. -/
def getAreaND (dimensions : List ℕ) (radius : ℕ) : ℕ :=
  dimensions.foldl (fun area dim => area * min dim (2 * radius + 1)) 1

/-- The state of a `SpatialPooler` (the fields of SpatialPooler.hpp that
the functions modelled below read).  Field names follow the source with
the trailing underscore dropped. -/
structure SpatialPooler where
  inputDimensions : List ℕ
  columnDimensions : List ℕ
  numInputs : ℕ
  numColumns : ℕ
  globalInhibition : Bool
  numActiveColumnsPerInhArea : ℕ
  localAreaDensity : ℚ
  stimulusThreshold : ℕ
  inhibitionRadius : ℕ
  boostStrength : ℚ
  boostFactors : List ℚ
  neighborMap : List (List ℕ)
  iterationNum : ℕ
  iterationLearnNum : ℕ
  connections : Htm.Connections
deriving Repr, DecidableEq, Inhabited

namespace SpatialPooler

/-- The boosted-overlap ordering of `inhibitColumnsGlobal_`
(SpatialPooler.cpp:876-878): `a` precedes `b` when its overlap is larger,
or on an exact tie when its index is larger (the source comparator returns
`a > b` on ties "for determinism"). -/
def colOrder (overlaps : List ℚ) (a b : ℕ) : Prop :=
  overlaps.getD b 0 < overlaps.getD a 0 ∨ (overlaps.getD a 0 = overlaps.getD b 0 ∧ b ≤ a)

instance (overlaps : List ℚ) : DecidableRel (colOrder overlaps) := fun _ _ => by
  unfold colOrder; infer_instance

/-- `SpatialPooler::inhibitColumnsGlobal_` (SpatialPooler.cpp:866-902).
The source partitions with `std::nth_element`, truncates to the first
`numDesired` entries and finishes with `std::sort` under the strict total
comparator above; the net result is the first `numDesired` entries of the
fully sorted column list, modelled here with a single sort.  Trailing
entries whose (boosted) overlap is below `stimulusThreshold` are then
popped from the back.  The `NTA_CHECK(numDesired > 0)` trap is modelled as
an empty result. -/
def inhibitColumnsGlobal (sp : SpatialPooler) (overlaps : List ℚ) (density : ℚ) :
    List ℕ :=
  let numDesired := (Int.floor (density * (sp.numColumns : ℚ))).toNat
  if numDesired = 0 then []
  else
    let sorted := (List.range sp.numColumns).insertionSort (colOrder overlaps)
    let winners := sorted.take numDesired
    (winners.reverse.dropWhile
      (fun c => decide (overlaps.getD c 0 < (sp.stimulusThreshold : ℚ)))).reverse

/-- `SpatialPooler::inhibitColumnsLocal_` (SpatialPooler.cpp:906-951):
ascending column scan; a column at or above `stimulusThreshold` is admitted
when fewer than `numDesiredLocalActive` of its cached neighbours beat it
(strictly larger overlap, or an equal overlap on an already-admitted
neighbour).  The early `break` once `otherBigger` reaches the bound does
not change the admission test and is not modelled. -/
def inhibitColumnsLocal (sp : SpatialPooler) (overlaps : List ℚ) (density : ℚ) :
    List ℕ :=
  let step := fun (acc : List ℕ × List Bool) (column : ℕ) =>
    if overlaps.getD column 0 < (sp.stimulusThreshold : ℚ) then acc
    else
      let hood := sp.neighborMap.getD column []
      let numDesiredLocalActive :=
        (Int.floor (mkRat 1 2 + density * ((hood.length : ℚ) + 1))).toNat
      let otherBigger := hood.countP
        (fun neighbor =>
          decide (overlaps.getD column 0 < overlaps.getD neighbor 0) ||
          (decide (overlaps.getD neighbor 0 = overlaps.getD column 0) &&
            acc.2.getD neighbor false))
      if otherBigger < numDesiredLocalActive then
        (acc.1 ++ [column], acc.2.set column true)
      else acc
  ((List.range sp.numColumns).foldl step ([], List.replicate sp.numColumns false)).1

/-- The target density computed at the top of `SpatialPooler::inhibitColumns_`
(SpatialPooler.cpp:848-856). -/
def density (sp : SpatialPooler) : ℚ :=
  if 0 < sp.numActiveColumnsPerInhArea then
    min ((sp.numActiveColumnsPerInhArea : ℚ) /
        (getAreaND sp.columnDimensions sp.inhibitionRadius : ℚ))
      MAX_LOCALAREADENSITY
  else sp.localAreaDensity

/-- The largest column dimension (`*max_element(columnDimensions_)`). -/
def maxColumnDimension (sp : SpatialPooler) : ℕ :=
  sp.columnDimensions.foldl max 0

/-- `SpatialPooler::inhibitColumns_` (SpatialPooler.cpp:847-863): dispatch
to global inhibition when `globalInhibition_` is set or the inhibition
radius exceeds the largest column dimension, else to local inhibition. -/
def inhibitColumns (sp : SpatialPooler) (overlaps : List ℚ) : List ℕ :=
  let d := sp.density
  if sp.globalInhibition || decide (sp.maxColumnDimension < sp.inhibitionRadius) then
    sp.inhibitColumnsGlobal overlaps d
  else
    sp.inhibitColumnsLocal overlaps d

/-- `SpatialPooler::boostOverlaps_` (SpatialPooler.cpp:522-531): with
boosting effectively disabled (`boostStrength_ < Epsilon`) copy the raw
overlaps, otherwise multiply each by its boost factor. -/
def boostOverlaps (sp : SpatialPooler) (overlaps : List ℕ) : List ℚ :=
  if sp.boostStrength < Htm.Epsilon then overlaps.map (fun o => (o : ℚ))
  else
    (List.range sp.numColumns).map
      (fun i => (overlaps.getD i 0 : ℚ) * sp.boostFactors.getD i 0)

/-- Modelled from the spec: `Connections::computeActivityWeighted` is called
by `SpatialPooler::compute` (SpatialPooler.cpp:485) but its implementation
is not among the provided sources (only this call site is).  Spec §4.2
step 2 specifies the overlap as "per-column overlap
`o[c] = |connected(c) ∩ active(input)|` via Connections.computeActivity",
so the call is modelled as `Connections.computeActivity` on the input's
active (sparse) indices. -/
def computeActivityWeighted (conn : Htm.Connections) (inputSparse : List ℕ)
    (learn : Bool) : List ℕ × Htm.Connections :=
  conn.computeActivity inputSparse learn

/-- The output-producing part of `SpatialPooler::compute`
(SpatialPooler.cpp:479-505): bookkeeping, raw overlaps, boosting,
inhibition, and the ascending sort of the active columns.  Returns the raw
overlaps (the function's return value), the active column list (written
into the output SDR) and the updated state.  The learning tail
(SpatialPooler.cpp:507-515, `adaptSynapses_` through the update round) runs
after both outputs are fully determined and is not modelled; no theorem in
this file concerns the post-learning state. -/
def compute (sp : SpatialPooler) (inputSparse : List ℕ) (learn : Bool) :
    List ℕ × List ℕ × SpatialPooler :=
  let sp := { sp with
    iterationNum := sp.iterationNum + 1,
    iterationLearnNum := if learn then sp.iterationLearnNum + 1 else sp.iterationLearnNum }
  let act := computeActivityWeighted sp.connections inputSparse learn
  let overlaps := act.1
  let sp := { sp with connections := act.2 }
  let boosted := sp.boostOverlaps overlaps
  let activeVector := (sp.inhibitColumns boosted).insertionSort (fun a b => a ≤ b)
  (overlaps, activeVector, sp)

end SpatialPooler

theorem getD_set_self {α : Type} [Inhabited α] (l : List α) (i : ℕ) (a : α)
    (h : i < l.length) : (l.set i a).getD i default = a := by
  rw [List.getD_eq_getElem?_getD, List.getElem?_set_self h]
  rfl

theorem getD_set_ne {α : Type} [Inhabited α] {l : List α} {i j : ℕ} {a : α}
    (h : i ≠ j) : (l.set i a).getD j default = l.getD j default := by
  rw [List.getD_eq_getElem?_getD, List.getElem?_set_ne h, ← List.getD_eq_getElem?_getD]

namespace Connections

theorem removeMap_length (syns : List SynapseData) (i : ℕ) (l1 l2 : List ℕ) :
    (removeSynapseFromPresynapticMap syns i l1 l2).1.length = syns.length := by
  unfold removeSynapseFromPresynapticMap
  rcases h1 : l1.getLast? with _ | mv <;> rcases h2 : l2.getLast? with _ | sg <;>
    simp [List.length_set]

theorem removeMap_fields (syns : List SynapseData) (i : ℕ) (l1 l2 : List ℕ) (k : ℕ) :
    ((removeSynapseFromPresynapticMap syns i l1 l2).1.getD k default).permanence
        = (syns.getD k default).permanence ∧
      ((removeSynapseFromPresynapticMap syns i l1 l2).1.getD k default).presynapticCell
        = (syns.getD k default).presynapticCell ∧
      ((removeSynapseFromPresynapticMap syns i l1 l2).1.getD k default).segment
        = (syns.getD k default).segment := by
  unfold removeSynapseFromPresynapticMap
  rcases h1 : l1.getLast? with _ | mv <;> rcases h2 : l2.getLast? with _ | sg <;>
    dsimp only <;> try exact ⟨rfl, rfl, rfl⟩
  by_cases hk : mv = k
  · subst hk
    by_cases hlt : mv < syns.length
    · rw [getD_set_self _ _ _ hlt]
      exact ⟨rfl, rfl, rfl⟩
    · rw [List.set_eq_of_length_le (by omega)]
      exact ⟨rfl, rfl, rfl⟩
  · rw [getD_set_ne hk]
    exact ⟨rfl, rfl, rfl⟩

theorem segs_set_preserves (segs : List SegmentData) (i : ℕ) (v : SegmentData)
    (hsy : v.synapses = (segs.getD i default).synapses)
    (hc : v.cell = (segs.getD i default).cell) (s : ℕ) :
    ((segs.set i v).getD s default).synapses = (segs.getD s default).synapses ∧
      ((segs.set i v).getD s default).cell = (segs.getD s default).cell := by
  by_cases hs : i = s
  · subst hs
    by_cases hlt : i < segs.length
    · rw [getD_set_self _ _ _ hlt]; exact ⟨hsy, hc⟩
    · rw [List.set_eq_of_length_le (le_of_not_lt hlt)]; exact ⟨rfl, rfl⟩
  · rw [getD_set_ne hs]; exact ⟨rfl, rfl⟩

/-- Everything `updateSynapsePermanence` leaves alone, plus the permanence
actually written: the clamped value at `synapse`, all other synapses'
permanence / presynaptic cell / segment fields unchanged, every segment's
synapse list and cell unchanged, and all bookkeeping outside the
presynaptic maps and `numConnected` unchanged. -/
theorem updateSynapsePermanence_spec (conn : Connections) (y : ℕ) (p : ℚ) :
    (conn.updateSynapsePermanence y p).synapses.length = conn.synapses.length ∧
      (conn.updateSynapsePermanence y p).segments.length = conn.segments.length ∧
      (conn.updateSynapsePermanence y p).connectedThreshold = conn.connectedThreshold ∧
      (∀ s, (conn.updateSynapsePermanence y p).synapsesForSegment s
        = conn.synapsesForSegment s) ∧
      (∀ s, ((conn.updateSynapsePermanence y p).segments.getD s default).cell
        = (conn.segments.getD s default).cell) ∧
      (conn.updateSynapsePermanence y p).cells = conn.cells ∧
      (conn.updateSynapsePermanence y p).destroyedSegments = conn.destroyedSegments ∧
      (conn.updateSynapsePermanence y p).destroyedSynapses = conn.destroyedSynapses ∧
      (conn.updateSynapsePermanence y p).timeseries = conn.timeseries ∧
      (conn.updateSynapsePermanence y p).previousUpdates = conn.previousUpdates ∧
      (conn.updateSynapsePermanence y p).currentUpdates = conn.currentUpdates ∧
      (y < conn.synapses.length →
        ((conn.updateSynapsePermanence y p).dataForSynapse y).permanence
            = max (min p maxPermanence) minPermanence ∧
          ((conn.updateSynapsePermanence y p).dataForSynapse y).presynapticCell
            = (conn.dataForSynapse y).presynapticCell ∧
          ((conn.updateSynapsePermanence y p).dataForSynapse y).segment
            = (conn.dataForSynapse y).segment) ∧
      (∀ k, k ≠ y →
        ((conn.updateSynapsePermanence y p).dataForSynapse k).permanence
            = (conn.dataForSynapse k).permanence ∧
          ((conn.updateSynapsePermanence y p).dataForSynapse k).presynapticCell
            = (conn.dataForSynapse k).presynapticCell ∧
          ((conn.updateSynapsePermanence y p).dataForSynapse k).segment
            = (conn.dataForSynapse k).segment) := by
  unfold updateSynapsePermanence
  dsimp only
  split_ifs with h1 h2
  · refine ⟨List.length_set _ _ _, rfl, rfl, fun s => rfl, fun s => rfl, rfl, rfl, rfl,
      rfl, rfl, rfl, ?_, ?_⟩
    · intro hy
      unfold dataForSynapse
      dsimp only
      rw [getD_set_self _ _ _ hy]
      exact ⟨rfl, rfl, rfl⟩
    · intro k hk
      unfold dataForSynapse
      dsimp only
      rw [getD_set_ne (Ne.symm hk)]
      exact ⟨rfl, rfl, rfl⟩
  · refine ⟨?_, ?_, rfl, ?_, ?_, rfl, rfl, rfl, rfl, rfl, rfl, ?_, ?_⟩
    · rw [List.length_set, removeMap_length, List.length_set]
    · exact List.length_set _ _ _
    · intro s
      unfold synapsesForSegment
      refine (segs_set_preserves _ _ _ ?_ ?_ s).1 <;> rfl
    · intro s
      refine (segs_set_preserves _ _ _ ?_ ?_ s).2 <;> rfl
    · intro hy
      unfold dataForSynapse
      dsimp only
      rw [getD_set_self _ _ _ (by rw [removeMap_length, List.length_set]; exact hy)]
      refine ⟨?_, ?_, ?_⟩
      · dsimp only
        rw [(removeMap_fields _ _ _ _ _).1, getD_set_self _ _ _ hy]
      · dsimp only
        rw [(removeMap_fields _ _ _ _ _).2.1, getD_set_self _ _ _ hy]
      · dsimp only
        rw [(removeMap_fields _ _ _ _ _).2.2, getD_set_self _ _ _ hy]
    · intro k hk
      unfold dataForSynapse
      dsimp only
      rw [getD_set_ne (Ne.symm hk)]
      refine ⟨?_, ?_, ?_⟩
      · rw [(removeMap_fields _ _ _ _ _).1, getD_set_ne (Ne.symm hk)]
      · rw [(removeMap_fields _ _ _ _ _).2.1, getD_set_ne (Ne.symm hk)]
      · rw [(removeMap_fields _ _ _ _ _).2.2, getD_set_ne (Ne.symm hk)]
  · refine ⟨?_, ?_, rfl, ?_, ?_, rfl, rfl, rfl, rfl, rfl, rfl, ?_, ?_⟩
    · rw [List.length_set, removeMap_length, List.length_set]
    · exact List.length_set _ _ _
    · intro s
      unfold synapsesForSegment
      refine (segs_set_preserves _ _ _ ?_ ?_ s).1 <;> rfl
    · intro s
      refine (segs_set_preserves _ _ _ ?_ ?_ s).2 <;> rfl
    · intro hy
      unfold dataForSynapse
      dsimp only
      rw [getD_set_self _ _ _ (by rw [removeMap_length, List.length_set]; exact hy)]
      refine ⟨?_, ?_, ?_⟩
      · dsimp only
        rw [(removeMap_fields _ _ _ _ _).1, getD_set_self _ _ _ hy]
      · dsimp only
        rw [(removeMap_fields _ _ _ _ _).2.1, getD_set_self _ _ _ hy]
      · dsimp only
        rw [(removeMap_fields _ _ _ _ _).2.2, getD_set_self _ _ _ hy]
    · intro k hk
      unfold dataForSynapse
      dsimp only
      rw [getD_set_ne (Ne.symm hk)]
      refine ⟨?_, ?_, ?_⟩
      · rw [(removeMap_fields _ _ _ _ _).1, getD_set_ne (Ne.symm hk)]
      · rw [(removeMap_fields _ _ _ _ _).2.1, getD_set_ne (Ne.symm hk)]
      · rw [(removeMap_fields _ _ _ _ _).2.2, getD_set_ne (Ne.symm hk)]

theorem find?_eq_some_of_unique {p : ℕ → Bool} {l : List ℕ} {y : ℕ}
    (hmem : y ∈ l) (hy : p y = true) (huniq : ∀ z ∈ l, p z = true → z = y) :
    l.find? p = some y := by
  induction l with
  | nil => cases hmem
  | cons a l ih =>
    by_cases ha : p a = true
    · have hay : a = y := huniq a (List.mem_cons_self a l) ha
      simp [List.find?_cons, ha, hay, hy]
    · have hay : a ≠ y := fun h => ha (h ▸ hy)
      have hmem' : y ∈ l := by
        rcases List.mem_cons.mp hmem with h | h
        · exact absurd h.symm hay
        · exact h
      have := ih hmem' (fun z hz hpz => huniq z (List.mem_cons_of_mem _ hz) hpz)
      simpa [List.find?_cons, ha] using this

/-- C2: `createSynapse` on a segment that already has a synapse `y` from the
same presynaptic cell creates nothing: it returns `y`, leaves every
segment's synapse list and the synapse count unchanged, sets `y`'s
permanence to the maximum of the existing and requested values, and leaves
the state entirely unchanged (in particular `numConnected`) when the
request does not exceed the existing permanence. -/
theorem createSynapse_duplicate (conn : Connections) (s c y : ℕ) (p : ℚ)
    (hy : y ∈ conn.synapsesForSegment s)
    (hpre : (conn.dataForSynapse y).presynapticCell = c)
    (huniq : ∀ z ∈ conn.synapsesForSegment s,
      (conn.dataForSynapse z).presynapticCell = c → z = y)
    (hylen : y < conn.synapses.length)
    (hp0 : 0 ≤ p) (hp1 : p ≤ 1) :
    (conn.createSynapse s c p).1 = y ∧
      (conn.createSynapse s c p).2.synapses.length = conn.synapses.length ∧
      (∀ t, (conn.createSynapse s c p).2.synapsesForSegment t
        = conn.synapsesForSegment t) ∧
      ((conn.createSynapse s c p).2.dataForSynapse y).permanence
        = max (conn.dataForSynapse y).permanence p ∧
      (p ≤ (conn.dataForSynapse y).permanence →
        ((conn.createSynapse s c p).2 = conn ∧
          ((conn.createSynapse s c p).2.segments.getD s default).numConnected
            = (conn.segments.getD s default).numConnected)) := by
  have hfind : (conn.synapsesForSegment s).find?
      (fun syn => (conn.dataForSynapse syn).presynapticCell == c) = some y := by
    refine find?_eq_some_of_unique hy ?_ ?_
    · simp [hpre]
    · intro z hz hpz
      exact huniq z hz (by simpa using hpz)
  unfold createSynapse
  rw [hfind]
  dsimp only
  by_cases hc : (conn.dataForSynapse y).permanence < p
  · rw [if_pos hc]
    obtain ⟨hlen, _, _, hsegs, _, _, _, _, _, _, _, hat, _⟩ :=
      conn.updateSynapsePermanence_spec y p
    refine ⟨rfl, hlen, hsegs, ?_, ?_⟩
    · have hperm := (hat hylen).1
      rw [hperm]
      have h1 : min p maxPermanence = p := min_eq_left hp1
      have h2 : max p minPermanence = p := max_eq_left hp0
      rw [h1]
      unfold maxPermanence minPermanence at *
      rw [h2, max_eq_right hc.le]
    · intro hple
      exact absurd hc (not_lt.mpr hple)
  · rw [if_neg hc]
    exact ⟨rfl, rfl, fun t => rfl, (max_eq_left (not_lt.mp hc)).symm,
      fun _ => ⟨rfl, rfl⟩⟩

/-- Concrete state for the C2 witness: one segment, one synapse from
presynaptic cell 7 with permanence 0.6. -/
def connDup : Connections where
  cells := [⟨[0]⟩]
  segments := [⟨0, [0], 1⟩]
  destroyedSegments := []
  synapses := [⟨7, 0, mkRat 6 10, 0⟩]
  destroyedSynapses := []
  potentialSynapsesForPresynapticCell := []
  connectedSynapsesForPresynapticCell := [(7, [0])]
  potentialSegmentsForPresynapticCell := []
  connectedSegmentsForPresynapticCell := [(7, [0])]
  connectedThreshold := mkRat 1 2
  iteration := 0
  timeseries := false
  previousUpdates := []
  currentUpdates := []
  prunedSyns := 0
  prunedSegs := 0

/-- Witness for C2: a duplicate `createSynapse(seg 0, presyn 7, 0.4)` against
an existing permanence of 0.6. -/
theorem createSynapse_duplicate_witness :
    (0 ∈ connDup.synapsesForSegment 0) ∧
      ((connDup.createSynapse 0 7 (mkRat 4 10)).1 = 0 ∧
        (connDup.createSynapse 0 7 (mkRat 4 10)).2.synapses.length
          = connDup.synapses.length ∧
        (∀ t, (connDup.createSynapse 0 7 (mkRat 4 10)).2.synapsesForSegment t
          = connDup.synapsesForSegment t) ∧
        ((connDup.createSynapse 0 7 (mkRat 4 10)).2.dataForSynapse 0).permanence
          = max (connDup.dataForSynapse 0).permanence (mkRat 4 10) ∧
        (mkRat 4 10 ≤ (connDup.dataForSynapse 0).permanence →
          ((connDup.createSynapse 0 7 (mkRat 4 10)).2 = connDup ∧
            ((connDup.createSynapse 0 7 (mkRat 4 10)).2.segments.getD 0
                default).numConnected
              = (connDup.segments.getD 0 default).numConnected))) :=
  ⟨by decide,
    createSynapse_duplicate connDup 0 7 0 (mkRat 4 10) (by decide)
      (by decide) (by decide) (by decide) (by decide) (by decide)⟩

/-- The lexicographic "at most as useful" order on segments: strictly
smaller heuristic, or equal heuristic and at most the handle. -/
def leastUseful (conn : Connections) (v t : ℕ) : Prop :=
  conn.segmentUsefulness v < conn.segmentUsefulness t ∨
    (conn.segmentUsefulness v = conn.segmentUsefulness t ∧ v ≤ t)

theorem leastUseful_refl (conn : Connections) (v : ℕ) : conn.leastUseful v v :=
  Or.inr ⟨rfl, le_rfl⟩

theorem leastUseful_trans {conn : Connections} {a b c : ℕ}
    (h1 : conn.leastUseful a b) (h2 : conn.leastUseful b c) : conn.leastUseful a c := by
  rcases h1 with h1 | ⟨h1, h1'⟩ <;> rcases h2 with h2 | ⟨h2, h2'⟩
  · exact Or.inl (h1.trans h2)
  · exact Or.inl (h2 ▸ h1)
  · exact Or.inl (h1 ▸ h2)
  · exact Or.inr ⟨h1.trans h2, h1'.trans h2'⟩

theorem pruneSelect_some (conn : Connections) (b a : ℕ) :
    ∃ b', conn.pruneSelect (some b) a = some b' ∧
      conn.leastUseful b' b ∧ conn.leastUseful b' a ∧ (b' = b ∨ b' = a) := by
  unfold pruneSelect
  dsimp only
  split_ifs with h
  · refine ⟨a, rfl, ?_, leastUseful_refl conn a, Or.inr rfl⟩
    rcases h with h | ⟨h, h'⟩
    · exact Or.inl h
    · exact Or.inr ⟨h, h'.le⟩
  · refine ⟨b, rfl, leastUseful_refl conn b, ?_, Or.inl rfl⟩
    push_neg at h
    rcases lt_or_eq_of_le h.1 with hlt | heq
    · exact Or.inl hlt
    · exact Or.inr ⟨heq, h.2 heq.symm⟩

theorem foldl_pruneSelect_spec (conn : Connections) :
    ∀ (l : List ℕ) (b : ℕ),
      ∃ v, l.foldl conn.pruneSelect (some b) = some v ∧ (v = b ∨ v ∈ l) ∧
        conn.leastUseful v b ∧ ∀ s ∈ l, conn.leastUseful v s := by
  intro l
  induction l with
  | nil =>
    intro b
    exact ⟨b, rfl, Or.inl rfl, leastUseful_refl conn b, by simp⟩
  | cons a l ih =>
    intro b
    obtain ⟨b', hb', hLb, hLa, hcase⟩ := pruneSelect_some conn b a
    obtain ⟨v, hv, hvmem, hvb', hvall⟩ := ih b'
    refine ⟨v, ?_, ?_, ?_, ?_⟩
    · rw [List.foldl_cons, hb']; exact hv
    · rcases hvmem with rfl | h
      · rcases hcase with rfl | rfl
        · exact Or.inl rfl
        · exact Or.inr (List.mem_cons_self _ _)
      · exact Or.inr (List.mem_cons_of_mem _ h)
    · exact leastUseful_trans hvb' hLb
    · intro s hs
      rcases List.mem_cons.mp hs with rfl | hs'
      · exact leastUseful_trans hvb' hLa
      · exact hvall s hs'

/-- `pruneSegment_` on a cell with at least one segment destroys the
least-useful segment (ties to the lower handle). -/
theorem pruneSegment_spec (conn : Connections) (cell : ℕ)
    (hne : conn.segmentsForCell cell ≠ []) :
    ∃ v, v ∈ conn.segmentsForCell cell ∧
      (∀ s ∈ conn.segmentsForCell cell, conn.leastUseful v s) ∧
      conn.pruneSegment cell = conn.destroySegment v := by
  obtain ⟨x, xs, hx⟩ := List.exists_cons_of_ne_nil hne
  obtain ⟨v, hv, hvmem, hvx, hvall⟩ := foldl_pruneSelect_spec conn xs x
  have hfold : (conn.segmentsForCell cell).foldl conn.pruneSelect none = some v := by
    rw [hx, List.foldl_cons]
    exact hv
  refine ⟨v, ?_, ?_, ?_⟩
  · rw [hx]
    rcases hvmem with rfl | h
    · exact List.mem_cons_self _ _
    · exact List.mem_cons_of_mem _ h
  · intro s hs
    rw [hx] at hs
    rcases List.mem_cons.mp hs with rfl | hs'
    · exact hvx
    · exact hvall s hs'
  · unfold pruneSegment
    rw [hfold]

theorem segs_set_cell (segs : List SegmentData) (i : ℕ) (v : SegmentData)
    (hc : v.cell = (segs.getD i default).cell) (t : ℕ) :
    ((segs.set i v).getD t default).cell = (segs.getD t default).cell := by
  by_cases hs : i = t
  · subst hs
    by_cases hlt : i < segs.length
    · rw [getD_set_self _ _ _ hlt]; exact hc
    · rw [List.set_eq_of_length_le (le_of_not_lt hlt)]
  · rw [getD_set_ne hs]

theorem segs_set_cell_pat (segs : List SegmentData) (i : ℕ) (syns : List ℕ)
    (nc : ℕ) (t : ℕ) :
    ((segs.set i
        { cell := (segs.getD i default).cell, synapses := syns,
          numConnected := nc }).getD t default).cell
      = (segs.getD t default).cell :=
  segs_set_cell segs i
    { cell := (segs.getD i default).cell, synapses := syns, numConnected := nc } rfl t

/-- `destroySynapse` never touches the cell table, the number of segments,
any segment's owning cell, the destroyed-segment free-list, the threshold,
or the number of synapse slots. -/
theorem destroySynapse_preserves (conn : Connections) (y : ℕ) :
    (conn.destroySynapse y).cells = conn.cells ∧
      (conn.destroySynapse y).segments.length = conn.segments.length ∧
      (∀ t, ((conn.destroySynapse y).segments.getD t default).cell
        = (conn.segments.getD t default).cell) ∧
      (conn.destroySynapse y).destroyedSegments = conn.destroyedSegments ∧
      (conn.destroySynapse y).connectedThreshold = conn.connectedThreshold ∧
      (conn.destroySynapse y).synapses.length = conn.synapses.length := by
  unfold destroySynapse
  dsimp only
  split_ifs with h1 h2 h3 h4 h5 <;>
    first
    | exact ⟨rfl, rfl, fun t => rfl, rfl, rfl, rfl⟩
    | · dsimp only
        refine ⟨rfl, ?_, ?_, rfl, rfl, ?_⟩
        · simp [List.length_set]
        · intro t
          first
          | (rw [segs_set_cell_pat, segs_set_cell_pat])
          | (rw [segs_set_cell_pat])
        · simp [removeMap_length]

theorem destroyAllSynapsesOnSegment_preserves :
    ∀ (fuel : ℕ) (conn : Connections) (s : ℕ),
      (conn.destroyAllSynapsesOnSegment s fuel).cells = conn.cells ∧
        (conn.destroyAllSynapsesOnSegment s fuel).segments.length
          = conn.segments.length ∧
        (∀ t, ((conn.destroyAllSynapsesOnSegment s fuel).segments.getD t default).cell
          = (conn.segments.getD t default).cell) ∧
        (conn.destroyAllSynapsesOnSegment s fuel).destroyedSegments
          = conn.destroyedSegments ∧
        (conn.destroyAllSynapsesOnSegment s fuel).connectedThreshold
          = conn.connectedThreshold := by
  intro fuel
  induction fuel with
  | zero => exact fun conn s => ⟨rfl, rfl, fun t => rfl, rfl, rfl⟩
  | succ n ih =>
    intro conn s
    unfold destroyAllSynapsesOnSegment
    cases h : (conn.synapsesForSegment s).getLast? with
    | none => exact ⟨rfl, rfl, fun t => rfl, rfl, rfl⟩
    | some y =>
      obtain ⟨i1, i2, i3, i4, i5⟩ := ih (conn.destroySynapse y) s
      obtain ⟨d1, d2, d3, d4, d5, _⟩ := destroySynapse_preserves conn y
      exact ⟨i1.trans d1, i2.trans d2, fun t => (i3 t).trans (d3 t), i4.trans d4,
        i5.trans d5⟩

/-- The effect of `destroySegment` on its cell's segment list: the segment
is erased; the cell table keeps its length and the free-list grows by the
destroyed handle. -/
theorem destroySegment_effect (conn : Connections) (v : ℕ)
    (hcv : (conn.segments.getD v default).cell < conn.cells.length) :
    (conn.destroySegment v).segmentsForCell ((conn.segments.getD v default).cell)
        = (conn.segmentsForCell ((conn.segments.getD v default).cell)).erase v ∧
      (conn.destroySegment v).cells.length = conn.cells.length ∧
      (conn.destroySegment v).destroyedSegments = conn.destroyedSegments ++ [v] := by
  unfold destroySegment
  dsimp only
  obtain ⟨p1, _, p3, p4, _⟩ := destroyAllSynapsesOnSegment_preserves
    ((conn.synapsesForSegment v).length) conn v
  rw [p1, p3 v, p4]
  unfold segmentsForCell
  refine ⟨?_, by simp [List.length_set], rfl⟩
  rw [getD_set_self _ _ _ hcv]

theorem pruneLoop_exit (cell m : ℕ) :
    ∀ (k : ℕ) (conn : Connections),
      (conn.segmentsForCell cell).length < m → conn.pruneLoop cell m k = conn := by
  intro k conn h
  cases k with
  | zero => rfl
  | succ n =>
    unfold pruneLoop
    rw [if_neg (not_le.mpr h)]

theorem allocSegment_mem (conn : Connections) (cell : ℕ)
    (hc : cell < conn.cells.length) :
    (conn.allocSegment cell).1 ∈ (conn.allocSegment cell).2.segmentsForCell cell := by
  unfold allocSegment
  cases h : conn.destroyedSegments.getLast? with
  | none =>
    unfold segmentsForCell
    dsimp only
    rw [getD_set_self _ _ _ hc]
    exact List.mem_append_right _ (List.mem_singleton.mpr rfl)
  | some s =>
    unfold segmentsForCell
    dsimp only
    rw [getD_set_self _ _ _ hc]
    exact List.mem_append_right _ (List.mem_singleton.mpr rfl)

/-- C4: `createSegment` on a cell that already holds exactly
`maxSegmentsPerCell` segments first destroys the least useful segment of
that cell — usefulness is the sum of squared permanences, ties go to the
lower handle — and then allocates a new segment on the cell; the returned
handle lives on the cell afterwards. -/
theorem createSegment_at_cap (conn : Connections) (cell m : ℕ)
    (hcell : cell < conn.numCells) (hm : 1 ≤ m)
    (hcount : (conn.segmentsForCell cell).length = m)
    (hcells : ∀ t ∈ conn.segmentsForCell cell,
      (conn.segments.getD t default).cell = cell) :
    ∃ v, v ∈ conn.segmentsForCell cell ∧
      (∀ t ∈ conn.segmentsForCell cell,
        conn.segmentUsefulness v < conn.segmentUsefulness t ∨
          (conn.segmentUsefulness v = conn.segmentUsefulness t ∧ v ≤ t)) ∧
      conn.createSegment cell m = (conn.destroySegment v).allocSegment cell ∧
      (conn.createSegment cell m).1 ∈ (conn.createSegment cell m).2.segmentsForCell cell := by
  have hne : conn.segmentsForCell cell ≠ [] := by
    intro h
    rw [h] at hcount
    simp at hcount
    omega
  obtain ⟨v, hvmem, hvall, hprune⟩ := pruneSegment_spec conn cell hne
  have hvcell : (conn.segments.getD v default).cell = cell := hcells v hvmem
  have hcv : (conn.segments.getD v default).cell < conn.cells.length := by
    rw [hvcell]; exact hcell
  obtain ⟨e1, e2, _⟩ := destroySegment_effect conn v hcv
  rw [hvcell] at e1
  have hlen' : ((conn.destroySegment v).segmentsForCell cell).length = m - 1 := by
    rw [e1, List.length_erase_of_mem hvmem, hcount]
  have hloop : conn.pruneLoop cell m (conn.segmentsForCell cell).length
      = conn.destroySegment v := by
    rw [hcount]
    obtain ⟨m', rfl⟩ : ∃ m', m = m' + 1 := ⟨m - 1, by omega⟩
    unfold pruneLoop
    rw [if_pos (by rw [hcount])]
    rw [hprune]
    exact pruneLoop_exit cell (m' + 1) m' (conn.destroySegment v) (by omega)
  have hcreate : conn.createSegment cell m = (conn.destroySegment v).allocSegment cell := by
    unfold createSegment
    rw [if_neg (by push_neg; exact ⟨by omega, not_le.mp (not_le.mpr hcell)⟩), hloop]
  refine ⟨v, hvmem, hvall, hcreate, ?_⟩
  rw [hcreate]
  exact allocSegment_mem (conn.destroySegment v) cell (by rw [e2]; exact hcell)

/-- Concrete state for the C4 witness: cell 0 at its cap of three segments
with distinct usefulness heuristics. -/
def connCap : Connections where
  cells := [⟨[0, 1, 2]⟩]
  segments := [⟨0, [0], 1⟩, ⟨0, [1], 1⟩, ⟨0, [2], 1⟩]
  destroyedSegments := []
  synapses := [⟨1, 0, mkRat 1 1, 0⟩, ⟨2, 1, mkRat 9 10, 0⟩, ⟨3, 2, mkRat 8 10, 0⟩]
  destroyedSynapses := []
  potentialSynapsesForPresynapticCell := []
  connectedSynapsesForPresynapticCell := [(1, [0]), (2, [1]), (3, [2])]
  potentialSegmentsForPresynapticCell := []
  connectedSegmentsForPresynapticCell := [(1, [0]), (2, [1]), (3, [2])]
  connectedThreshold := mkRat 1 2
  iteration := 0
  timeseries := false
  previousUpdates := []
  currentUpdates := []
  prunedSyns := 0
  prunedSegs := 0

/-- Witness for C4 at a concrete cell holding exactly three segments. -/
theorem createSegment_at_cap_witness :
    0 < connCap.numCells ∧ (connCap.segmentsForCell 0).length = 3 ∧
      ∃ v, v ∈ connCap.segmentsForCell 0 ∧
        (∀ t ∈ connCap.segmentsForCell 0,
          connCap.segmentUsefulness v < connCap.segmentUsefulness t ∨
            (connCap.segmentUsefulness v = connCap.segmentUsefulness t ∧ v ≤ t)) ∧
        connCap.createSegment 0 3 = (connCap.destroySegment v).allocSegment 0 ∧
        (connCap.createSegment 0 3).1 ∈ (connCap.createSegment 0 3).2.segmentsForCell 0 :=
  ⟨by decide, by decide,
    createSegment_at_cap connCap 0 3 (by decide) (by decide) (by decide)
      (by decide)⟩

end Connections

namespace SpatialPooler

theorem colOrder_total (overlaps : List ℚ) (a b : ℕ) :
    colOrder overlaps a b ∨ colOrder overlaps b a := by
  unfold colOrder
  rcases lt_trichotomy (overlaps.getD a 0) (overlaps.getD b 0) with h | h | h
  · exact Or.inr (Or.inl h)
  · rcases Nat.le_total b a with hba | hab
    · exact Or.inl (Or.inr ⟨h, hba⟩)
    · exact Or.inr (Or.inr ⟨h.symm, hab⟩)
  · exact Or.inl (Or.inl h)

theorem colOrder_trans (overlaps : List ℚ) (a b c : ℕ) :
    colOrder overlaps a b → colOrder overlaps b c → colOrder overlaps a c := by
  unfold colOrder
  rintro (h1 | ⟨h1, h1'⟩) (h2 | ⟨h2, h2'⟩)
  · exact Or.inl (h2.trans h1)
  · exact Or.inl (h2 ▸ h1)
  · exact Or.inl (h1 ▸ h2)
  · exact Or.inr ⟨h1.trans h2, h2'.trans h1'⟩

instance (overlaps : List ℚ) : IsTotal ℕ (colOrder overlaps) :=
  ⟨colOrder_total overlaps⟩

instance (overlaps : List ℚ) : IsTrans ℕ (colOrder overlaps) :=
  ⟨fun a b c => colOrder_trans overlaps a b c⟩

theorem colOrder_le {overlaps : List ℚ} {a b : ℕ} (h : colOrder overlaps a b) :
    overlaps.getD b 0 ≤ overlaps.getD a 0 := by
  rcases h with h | ⟨h, _⟩
  · exact h.le
  · exact h.ge

theorem colOrder_refl (overlaps : List ℚ) (a : ℕ) : colOrder overlaps a a :=
  Or.inr ⟨rfl, le_rfl⟩

/-- Popping below-threshold entries off the back of a list that is weakly
descending in overlap removes exactly the below-threshold entries. -/
theorem dropTrailing_eq_filter (ov : List ℚ) (stim : ℚ) (l : List ℕ)
    (hsorted : l.Pairwise (fun a b => ov.getD b 0 ≤ ov.getD a 0)) :
    ((l.reverse.dropWhile (fun c => decide (ov.getD c 0 < stim))).reverse)
      = l.filter (fun c => decide (stim ≤ ov.getD c 0)) := by
  induction l with
  | nil => simp
  | cons x xs ih =>
    rcases List.pairwise_cons.mp hsorted with ⟨hx, hxs⟩
    by_cases hpx : ov.getD x 0 < stim
    · have hall : ∀ y ∈ (x :: xs).reverse,
          (fun c => decide (ov.getD c 0 < stim)) y = true := by
        intro y hy
        simp only [List.mem_reverse, List.mem_cons] at hy
        rcases hy with rfl | hy'
        · simpa using hpx
        · simpa using lt_of_le_of_lt (hx y hy') hpx
      have hfail : ∀ y ∈ x :: xs, ¬ ((fun c => decide (stim ≤ ov.getD c 0)) y = true) := by
        intro y hy
        have := hall y (List.mem_reverse.mpr hy)
        simp only [decide_eq_true_eq] at this ⊢
        exact not_le.mpr this
      rw [List.dropWhile_eq_nil_iff.mpr hall, List.filter_eq_nil_iff.mpr hfail]
      rfl
    · have hqx : (fun c => decide (stim ≤ ov.getD c 0)) x = true := by
        simpa using not_lt.mp hpx
      rw [List.reverse_cons, List.dropWhile_append]
      by_cases he : (xs.reverse.dropWhile (fun c => decide (ov.getD c 0 < stim))).isEmpty
      · have hnilrev :
            (xs.reverse.dropWhile (fun c => decide (ov.getD c 0 < stim))) = [] :=
          List.isEmpty_iff.mp he
        have hxsfilter : xs.filter (fun c => decide (stim ≤ ov.getD c 0)) = [] := by
          rw [← ih hxs, hnilrev]; rfl
        rw [if_pos he]
        have hdx : List.dropWhile (fun c => decide (ov.getD c 0 < stim)) [x] = [x] := by
          rw [List.dropWhile_cons, if_neg (by simpa using hpx)]
        rw [hdx, List.filter_cons, if_pos hqx, hxsfilter]
        rfl
      · simp only [he, Bool.false_eq_true, if_false]
        rw [List.reverse_append]
        simp only [List.reverse_cons, List.reverse_nil, List.nil_append,
          List.singleton_append]
        rw [ih hxs, List.filter_cons, if_pos hqx]

/-- In a `colOrder`-sorted list, everything that strictly precedes a member
of the first `m` entries is itself among the first `m` entries. -/
theorem mem_take_of_sorted_precedes {ov : List ℚ} {xs : List ℕ}
    (hs : xs.Pairwise (colOrder ov)) {a b m : ℕ}
    (hnab : ¬ colOrder ov a b) (ha : a ∈ xs.take m) (hb : b ∈ xs) :
    b ∈ xs.take m := by
  obtain ⟨i, hi, hia⟩ := List.mem_iff_getElem.mp ha
  have hilen : i < xs.length := lt_of_lt_of_le hi (by simp [List.length_take])
  have him : i < m := lt_of_lt_of_le hi (by simp [List.length_take])
  have hxa : xs[i] = a := by rw [List.getElem_take] at hia; exact hia
  obtain ⟨j, hj, hjb⟩ := List.mem_iff_getElem.mp hb
  have hne : i ≠ j := by
    intro h
    subst h
    exact hnab (hxa ▸ hjb ▸ colOrder_refl ov xs[i])
  rcases Nat.lt_or_ge i j with hij | hji
  · exact absurd (hxa ▸ hjb ▸ List.pairwise_iff_getElem.mp hs i j hilen hj hij) hnab
  · have hji' : j < i := lt_of_le_of_ne hji (Ne.symm hne)
    have hjm : j < m := hji'.trans him
    refine List.mem_iff_getElem.mpr ⟨j, ?_, ?_⟩
    · simpa [List.length_take] using ⟨hjm, hj⟩
    · rw [List.getElem_take]; exact hjb

/-- `inhibitColumnsGlobal` written as filter-of-take: the winners are the
first `numDesired` columns under the boosted-overlap order, and the
trailing pop removes exactly the sub-threshold winners. -/
theorem inhibitColumnsGlobal_eq_filter (sp : SpatialPooler) (overlaps : List ℚ)
    (density : ℚ) :
    sp.inhibitColumnsGlobal overlaps density =
      (((List.range sp.numColumns).insertionSort (colOrder overlaps)).take
          (Int.floor (density * (sp.numColumns : ℚ))).toNat).filter
        (fun c => decide ((sp.stimulusThreshold : ℚ) ≤ overlaps.getD c 0)) := by
  unfold inhibitColumnsGlobal
  by_cases h : (Int.floor (density * (sp.numColumns : ℚ))).toNat = 0
  · simp [h]
  · simp only [if_neg h]
    apply dropTrailing_eq_filter
    have hs := List.sorted_insertionSort (colOrder overlaps) (List.range sp.numColumns)
    exact ((hs.imp fun h => colOrder_le h).sublist (List.take_sublist _ _))

end SpatialPooler

/-- C10: with `globalInhibition` unset, an inhibition radius exceeding the
largest column dimension makes `inhibitColumns_` (the selection step of
`compute`) use the global inhibition procedure instead of the local one. -/
theorem SpatialPooler.inhibitColumns_usesGlobal_of_radius_exceeds
    (sp : SpatialPooler) (overlaps : List ℚ)
    (hglobal : sp.globalInhibition = false)
    (hradius : sp.maxColumnDimension < sp.inhibitionRadius) :
    sp.inhibitColumns overlaps = sp.inhibitColumnsGlobal overlaps sp.density := by
  unfold inhibitColumns
  simp [hglobal, hradius]

/-- C5 (amended): in global inhibition an exact tie in boosted overlap is
resolved in favour of the column with the HIGHER index: if the lower-index
column of a tied pair is admitted, so is the higher-index one. -/
theorem SpatialPooler.inhibitColumnsGlobal_tie_prefers_higher_index
    (sp : SpatialPooler) (overlaps : List ℚ) (density : ℚ) {a b : ℕ}
    (hab : a < b) (hb : b < sp.numColumns)
    (heq : overlaps.getD a 0 = overlaps.getD b 0)
    (hmem : a ∈ sp.inhibitColumnsGlobal overlaps density) :
    b ∈ sp.inhibitColumnsGlobal overlaps density := by
  rw [SpatialPooler.inhibitColumnsGlobal_eq_filter] at hmem ⊢
  rcases List.mem_filter.mp hmem with ⟨htake, hstim⟩
  have hnab : ¬ SpatialPooler.colOrder overlaps a b := by
    unfold SpatialPooler.colOrder
    rintro (h | ⟨_, h'⟩)
    · rw [heq] at h; exact lt_irrefl _ h
    · exact absurd hab (not_lt.mpr h')
  have hsorted :=
    List.sorted_insertionSort (SpatialPooler.colOrder overlaps) (List.range sp.numColumns)
  have hbmem :
      b ∈ (List.range sp.numColumns).insertionSort (SpatialPooler.colOrder overlaps) :=
    ((List.perm_insertionSort _ _).mem_iff).mpr (List.mem_range.mpr hb)
  have hbtake := SpatialPooler.mem_take_of_sorted_precedes hsorted hnab htake hbmem
  refine List.mem_filter.mpr ⟨hbtake, ?_⟩
  simp only [decide_eq_true_eq] at hstim ⊢
  rwa [heq] at hstim

/-- Concrete two-column pooler in which both columns end up with the same
boosted overlap (boosting disabled, identical proximal synapses). -/
def spTie : SpatialPooler where
  inputDimensions := [1]
  columnDimensions := [2]
  numInputs := 1
  numColumns := 2
  globalInhibition := true
  numActiveColumnsPerInhArea := 0
  localAreaDensity := mkRat 1 2
  stimulusThreshold := 1
  inhibitionRadius := 2
  boostStrength := 0
  boostFactors := [1, 1]
  neighborMap := [[], []]
  iterationNum := 0
  iterationLearnNum := 0
  connections :=
    { cells := [⟨[0]⟩, ⟨[1]⟩]
      segments := [⟨0, [0], 1⟩, ⟨1, [1], 1⟩]
      destroyedSegments := []
      synapses := [⟨0, 0, mkRat 1 2, 0⟩, ⟨0, 1, mkRat 1 2, 1⟩]
      destroyedSynapses := []
      potentialSynapsesForPresynapticCell := []
      connectedSynapsesForPresynapticCell := [(0, [0, 1])]
      potentialSegmentsForPresynapticCell := []
      connectedSegmentsForPresynapticCell := [(0, [0, 1])]
      connectedThreshold := mkRat 3 10
      iteration := 0
      timeseries := false
      previousUpdates := []
      currentUpdates := []
      prunedSyns := 0
      prunedSegs := 0 }

/-- Counterexample to C5 as stated: on `spTie` both columns have boosted
overlap 1 and one slot is available, yet `compute` admits column 1 and
rejects column 0 — the HIGHER index wins the tie, not the lower. -/
theorem SpatialPooler.tie_lower_index_not_preferred :
    (spTie.compute [0] false).2.1 = [1] ∧
      (spTie.boostOverlaps (spTie.compute [0] false).1).getD 0 0 =
        (spTie.boostOverlaps (spTie.compute [0] false).1).getD 1 0 := by
  constructor
  · norm_num [spTie, SpatialPooler.compute, SpatialPooler.computeActivityWeighted,
      Connections.computeActivity, mapGetD, SpatialPooler.boostOverlaps,
      SpatialPooler.inhibitColumns, SpatialPooler.density,
      SpatialPooler.maxColumnDimension, SpatialPooler.inhibitColumnsGlobal,
      SpatialPooler.colOrder, Epsilon, List.insertionSort, List.orderedInsert,
      List.range_succ, List.dropWhile]
  · norm_num [spTie, SpatialPooler.compute, SpatialPooler.computeActivityWeighted,
      Connections.computeActivity, mapGetD, SpatialPooler.boostOverlaps, Epsilon,
      List.replicate_succ, List.set_cons_zero, List.set_cons_succ]

/-- Witness for the amended C5 at a concrete input: with density 1 both
tied columns are admitted, and the theorem transports membership of column
0 to column 1. -/
theorem SpatialPooler.tie_prefers_higher_index_witness :
    0 < 1 ∧ 1 < spTie.numColumns ∧
      ([(1 : ℚ), 1].getD 0 0 = [(1 : ℚ), 1].getD 1 0) ∧
      1 ∈ spTie.inhibitColumnsGlobal [1, 1] 1 :=
  ⟨Nat.zero_lt_one, by decide, by norm_num,
    SpatialPooler.inhibitColumnsGlobal_tie_prefers_higher_index spTie [1, 1] 1
      Nat.zero_lt_one (by decide) (by norm_num)
      (by norm_num [spTie, SpatialPooler.inhibitColumnsGlobal, SpatialPooler.colOrder,
        List.insertionSort, List.orderedInsert, List.range_succ, List.dropWhile])⟩

/-- C6 (amended): global inhibition admits a column only when its BOOSTED
overlap reaches `stimulusThreshold`; the output never exceeds
`⌊density·numColumns⌋` winners, and it has exactly that many whenever at
least that many columns pass the boosted threshold (fewer only when
trailing winners fail it). -/
theorem SpatialPooler.inhibitColumnsGlobal_admits_boosted_threshold
    (sp : SpatialPooler) (overlaps : List ℚ) (density : ℚ) :
    (∀ c ∈ sp.inhibitColumnsGlobal overlaps density,
        (sp.stimulusThreshold : ℚ) ≤ overlaps.getD c 0) ∧
      (sp.inhibitColumnsGlobal overlaps density).length
          ≤ (Int.floor (density * (sp.numColumns : ℚ))).toNat ∧
      ((Int.floor (density * (sp.numColumns : ℚ))).toNat
            ≤ (List.range sp.numColumns).countP
                (fun c => decide ((sp.stimulusThreshold : ℚ) ≤ overlaps.getD c 0)) →
        (sp.inhibitColumnsGlobal overlaps density).length
          = (Int.floor (density * (sp.numColumns : ℚ))).toNat) := by
  rw [SpatialPooler.inhibitColumnsGlobal_eq_filter]
  set n := (Int.floor (density * (sp.numColumns : ℚ))).toNat with hn
  set q : ℕ → Bool := fun c => decide ((sp.stimulusThreshold : ℚ) ≤ overlaps.getD c 0)
    with hq
  set sorted :=
    (List.range sp.numColumns).insertionSort (SpatialPooler.colOrder overlaps)
    with hsorted
  have hlen : sorted.length = sp.numColumns := by
    rw [hsorted, List.length_insertionSort, List.length_range]
  refine ⟨?_, ?_, ?_⟩
  · intro c hc
    have := (List.mem_filter.mp hc).2
    simpa [hq] using this
  · exact le_trans (List.length_filter_le _ _) (List.length_take_le _ _)
  · intro hcount
    have hcount' : n ≤ sorted.countP q := by
      have h := (List.perm_insertionSort (SpatialPooler.colOrder overlaps)
        (List.range sp.numColumns)).countP_eq q
      rw [hsorted, h]
      exact hcount
    have hall : ∀ c ∈ sorted.take n, q c = true := by
      by_contra hcon
      push_neg at hcon
      obtain ⟨c, hmem, hqc⟩ := hcon
      obtain ⟨i, hi, hic⟩ := List.mem_iff_getElem.mp hmem
      have hin : i < n := lt_of_lt_of_le hi (List.length_take_le _ _)
      have hilen : i < sorted.length := by
        have := hi
        rw [List.length_take] at this
        exact lt_of_lt_of_le this (min_le_right _ _)
      have hsi : sorted[i] = c := by rw [List.getElem_take] at hic; exact hic
      have hqi : ¬ (q sorted[i] = true) := hsi ▸ hqc
      have hdrop0 : (sorted.drop i).countP q = 0 := by
        refine List.countP_eq_zero.mpr ?_
        intro x hx
        obtain ⟨j, hj, hxj⟩ := List.mem_iff_getElem.mp hx
        rw [List.getElem_drop] at hxj
        rcases Nat.eq_zero_or_pos j with rfl | hjpos
        · have hx0 : sorted[i] = x := by simpa using hxj
          rw [← hx0]
          simpa using hqi
        · have hlt : i < i + j := Nat.lt_add_of_pos_right hjpos
          have hijlen : i + j < sorted.length := by
            have := hj
            rw [List.length_drop] at this
            omega
          have hrel := List.pairwise_iff_getElem.mp
            (List.sorted_insertionSort (SpatialPooler.colOrder overlaps)
              (List.range sp.numColumns)) i (i + j) hilen hijlen hlt
          have hle : overlaps.getD (sorted[i + j]) 0 ≤ overlaps.getD (sorted[i]) 0 :=
            SpatialPooler.colOrder_le hrel
          have hstim : overlaps.getD (sorted[i]) 0 < (sp.stimulusThreshold : ℚ) := by
            simpa [hq, not_le] using hqi
          have : overlaps.getD x 0 < (sp.stimulusThreshold : ℚ) := by
            rw [← hxj]; exact lt_of_le_of_lt hle hstim
          simpa [hq, not_le] using this
      have hsplit : sorted.countP q
          = (sorted.take i).countP q + (sorted.drop i).countP q := by
        rw [← List.countP_append, List.take_append_drop]
      have hbound : sorted.countP q ≤ i := by
        rw [hsplit, hdrop0, Nat.add_zero]
        exact le_trans (List.countP_le_length q) (List.length_take_le _ _)
      omega
    rw [List.filter_eq_self.mpr hall, List.length_take, hlen]
    have hnle : n ≤ sp.numColumns :=
      le_trans hcount (by simpa using List.countP_le_length q (l := List.range sp.numColumns))
    omega

/-- Four-column pooler in which column 0 has raw overlap 1 (below
`stimulusThreshold = 2`) but boost factor 3, so its boosted overlap is 3. -/
def spBoost : SpatialPooler where
  inputDimensions := [2]
  columnDimensions := [4]
  numInputs := 2
  numColumns := 4
  globalInhibition := true
  numActiveColumnsPerInhArea := 0
  localAreaDensity := mkRat 1 2
  stimulusThreshold := 2
  inhibitionRadius := 4
  boostStrength := 1
  boostFactors := [3, 1, 1, 1]
  neighborMap := [[], [], [], []]
  iterationNum := 0
  iterationLearnNum := 0
  connections :=
    { cells := [⟨[0]⟩, ⟨[1]⟩, ⟨[2]⟩, ⟨[3]⟩]
      segments := [⟨0, [0], 1⟩, ⟨1, [1], 1⟩, ⟨2, [], 0⟩, ⟨3, [], 0⟩]
      destroyedSegments := []
      synapses := [⟨0, 0, mkRat 1 2, 0⟩, ⟨0, 1, mkRat 1 2, 1⟩]
      destroyedSynapses := []
      potentialSynapsesForPresynapticCell := []
      connectedSynapsesForPresynapticCell := [(0, [0, 1])]
      potentialSegmentsForPresynapticCell := []
      connectedSegmentsForPresynapticCell := [(0, [0, 1])]
      connectedThreshold := mkRat 3 10
      iteration := 0
      timeseries := false
      previousUpdates := []
      currentUpdates := []
      prunedSyns := 0
      prunedSegs := 0 }

/-- Counterexample to C6 as stated: `compute` on `spBoost` admits column 0
even though its RAW overlap (1) is below `stimulusThreshold` (2) — the
admission test uses the boosted overlap, not the raw one. -/
theorem SpatialPooler.raw_threshold_not_enforced :
    (spBoost.compute [0] false).2.1 = [0] ∧
      (spBoost.compute [0] false).1.getD 0 0 < spBoost.stimulusThreshold := by
  constructor
  · norm_num [spBoost, SpatialPooler.compute, SpatialPooler.computeActivityWeighted,
      Connections.computeActivity, mapGetD, SpatialPooler.boostOverlaps,
      SpatialPooler.inhibitColumns, SpatialPooler.density,
      SpatialPooler.maxColumnDimension, SpatialPooler.inhibitColumnsGlobal,
      SpatialPooler.colOrder, Epsilon, List.insertionSort, List.orderedInsert,
      List.range_succ, List.dropWhile, List.replicate_succ, List.set_cons_zero,
      List.set_cons_succ]
  · norm_num [spBoost, SpatialPooler.compute, SpatialPooler.computeActivityWeighted,
      Connections.computeActivity, mapGetD, List.replicate_succ, List.set_cons_zero,
      List.set_cons_succ]

/-- Witness for the amended C6 at a concrete input: on `spTie` with density
1 both columns pass the boosted threshold, so the output has exactly
`⌊1·2⌋ = 2` active columns. -/
theorem SpatialPooler.boosted_threshold_witness :
    (Int.floor ((1 : ℚ) * (spTie.numColumns : ℚ))).toNat
        ≤ (List.range spTie.numColumns).countP
            (fun c => decide ((spTie.stimulusThreshold : ℚ) ≤ [(1 : ℚ), 1].getD c 0)) ∧
      (spTie.inhibitColumnsGlobal [1, 1] 1).length
        = (Int.floor ((1 : ℚ) * (spTie.numColumns : ℚ))).toNat :=
  ⟨by norm_num [spTie, List.range_succ],
    (SpatialPooler.inhibitColumnsGlobal_admits_boosted_threshold spTie [1, 1] 1).2.2
      (by norm_num [spTie, List.range_succ])⟩

/-- Concrete SpatialPooler used to witness the inhibition dispatch of C10:
`globalInhibition = false` but the inhibition radius (3) exceeds the
largest column dimension (2). -/
def spDispatch : SpatialPooler where
  inputDimensions := [1]
  columnDimensions := [2]
  numInputs := 1
  numColumns := 2
  globalInhibition := false
  numActiveColumnsPerInhArea := 0
  localAreaDensity := mkRat 1 2
  stimulusThreshold := 0
  inhibitionRadius := 3
  boostStrength := 0
  boostFactors := [1, 1]
  neighborMap := [[], []]
  iterationNum := 0
  iterationLearnNum := 0
  connections := Connections.init 2 (mkRat 1 2) false

/-- Witness for C10 at a concrete pooler state. -/
theorem SpatialPooler.inhibitColumns_usesGlobal_witness :
    spDispatch.globalInhibition = false ∧
      spDispatch.maxColumnDimension < spDispatch.inhibitionRadius ∧
      spDispatch.inhibitColumns [1, 2] =
        spDispatch.inhibitColumnsGlobal [1, 2] spDispatch.density :=
  ⟨rfl, by decide,
    SpatialPooler.inhibitColumns_usesGlobal_of_radius_exceeds spDispatch [1, 2] rfl
      (by decide)⟩

namespace Connections

theorem getD_set_self' {α : Type} (l : List α) (i : ℕ) (a d : α) (h : i < l.length) :
    (l.set i a).getD i d = a := by
  rw [List.getD_eq_getElem?_getD, List.getElem?_set_self h]
  rfl

theorem getD_set_ne' {α : Type} {l : List α} {i j : ℕ} (a d : α) (h : i ≠ j) :
    (l.set i a).getD j d = l.getD j d := by
  rw [List.getD_eq_getElem?_getD, List.getElem?_set_ne h, ← List.getD_eq_getElem?_getD]

theorem count_map_eq_countP (f : ℕ → ℕ) (l : List ℕ) (s : ℕ) :
    (l.map f).count s = l.countP (fun y => f y == s) := by
  induction l with
  | nil => rfl
  | cons a l ih => rw [List.map_cons, List.count_cons, List.countP_cons, ih]

theorem countP_or_disjoint (l : List ℕ) (p q : ℕ → Bool)
    (h : ∀ y ∈ l, ¬(p y = true ∧ q y = true)) :
    l.countP (fun y => p y || q y) = l.countP p + l.countP q := by
  induction l with
  | nil => rfl
  | cons a l ih =>
    rw [List.countP_cons, List.countP_cons, List.countP_cons,
      ih (fun y hy => h y (List.mem_cons_of_mem _ hy))]
    have ha := h a (List.mem_cons_self _ _)
    cases hp : p a <;> cases hq : q a <;> simp [hp, hq] at ha ⊢ <;> omega

theorem foldl_inc_spec (segs : List ℕ) :
    ∀ (acc : List ℕ),
      ((segs.foldl (fun a seg => a.set seg (a.getD seg 0 + 1)) acc).length
        = acc.length) ∧
      ∀ s, s < acc.length →
        (segs.foldl (fun a seg => a.set seg (a.getD seg 0 + 1)) acc).getD s 0
          = acc.getD s 0 + segs.count s := by
  induction segs with
  | nil => exact fun acc => ⟨rfl, fun s _ => by simp⟩
  | cons a rest ih =>
    intro acc
    rw [List.foldl_cons]
    obtain ⟨ihl, ihv⟩ := ih (acc.set a (acc.getD a 0 + 1))
    refine ⟨by rw [ihl, List.length_set], ?_⟩
    intro s hs
    rw [ihv s (by rw [List.length_set]; exact hs), List.count_cons]
    by_cases has : a = s
    · subst has
      rw [getD_set_self' _ _ _ _ hs]
      simp
      omega
    · rw [getD_set_ne' _ _ has]
      have : (a == s) = false := beq_eq_false_iff_ne.mpr has
      simp [this]

theorem foldl_activity_spec (m : List (ℕ × List ℕ)) :
    ∀ (A : List ℕ) (acc : List ℕ),
      ((A.foldl (fun acc2 cell => (mapGetD m cell).foldl
          (fun a seg => a.set seg (a.getD seg 0 + 1)) acc2) acc).length = acc.length) ∧
      ∀ s, s < acc.length →
        (A.foldl (fun acc2 cell => (mapGetD m cell).foldl
            (fun a seg => a.set seg (a.getD seg 0 + 1)) acc2) acc).getD s 0
          = acc.getD s 0 + (A.map (fun c => (mapGetD m c).count s)).sum := by
  intro A
  induction A with
  | nil => exact fun acc => ⟨rfl, fun s _ => by simp⟩
  | cons c A' ih =>
    intro acc
    rw [List.foldl_cons]
    obtain ⟨il, iv⟩ := foldl_inc_spec (mapGetD m c) acc
    obtain ⟨ihl, ihv⟩ := ih ((mapGetD m c).foldl
      (fun a seg => a.set seg (a.getD seg 0 + 1)) acc)
    refine ⟨by rw [ihl, il], ?_⟩
    intro s hs
    rw [ihv s (by rw [il]; exact hs), iv s hs, List.map_cons, List.sum_cons]
    omega

/-- Well-formedness of the connected presynaptic index, relative to a set
`A` of presynaptic cells: the parallel segment list mirrors the synapse
list, the synapse lists are duplicate-free, sound (each entry is a live
connected synapse of that presynaptic cell, sitting on its own segment)
and complete (every such synapse is listed), and every live segment's
synapse list is duplicate-free with correct back-pointers.  These are
invariants 2-4 of the specification restricted to what `computeActivity`
reads. -/
structure ActivityWF (conn : Connections) (A : List ℕ) : Prop where
  segsMap : ∀ c ∈ A, mapGetD conn.connectedSegmentsForPresynapticCell c
    = (mapGetD conn.connectedSynapsesForPresynapticCell c).map
        (fun y => (conn.dataForSynapse y).segment)
  synsNodup : ∀ c ∈ A, (mapGetD conn.connectedSynapsesForPresynapticCell c).Nodup
  synsSound : ∀ c ∈ A, ∀ y ∈ mapGetD conn.connectedSynapsesForPresynapticCell c,
    y < conn.synapses.length ∧ (conn.dataForSynapse y).presynapticCell = c ∧
      conn.connectedThreshold ≤ (conn.dataForSynapse y).permanence ∧
      conn.liveSegment (conn.dataForSynapse y).segment ∧
      y ∈ conn.synapsesForSegment (conn.dataForSynapse y).segment
  synsComplete : ∀ c ∈ A, ∀ y, y < conn.synapses.length →
    (conn.dataForSynapse y).presynapticCell = c →
    conn.connectedThreshold ≤ (conn.dataForSynapse y).permanence →
    conn.liveSegment (conn.dataForSynapse y).segment →
    y ∈ conn.synapsesForSegment (conn.dataForSynapse y).segment →
    y ∈ mapGetD conn.connectedSynapsesForPresynapticCell c
  segsWF : ∀ s, s < conn.segments.length → s ∉ conn.destroyedSegments →
    (conn.synapsesForSegment s).Nodup ∧
      ∀ y ∈ conn.synapsesForSegment s,
        y < conn.synapses.length ∧ (conn.dataForSynapse y).segment = s

theorem per_cell_count (conn : Connections) (A : List ℕ) (hwf : conn.ActivityWF A)
    (s : ℕ) (hs : conn.liveSegment s) (c : ℕ) (hc : c ∈ A) :
    (mapGetD conn.connectedSegmentsForPresynapticCell c).count s
      = (conn.synapsesForSegment s).countP
          (fun y => ((conn.dataForSynapse y).presynapticCell == c)
            && decide (conn.connectedThreshold ≤ (conn.dataForSynapse y).permanence)) := by
  obtain ⟨hsnodup, hsmem⟩ := hwf.segsWF s hs.1 hs.2
  rw [hwf.segsMap c hc, count_map_eq_countP, List.countP_eq_length_filter,
    List.countP_eq_length_filter]
  apply List.Perm.length_eq
  rw [List.perm_ext_iff_of_nodup (List.Nodup.filter _ (hwf.synsNodup c hc))
    (List.Nodup.filter _ hsnodup)]
  intro y
  simp only [List.mem_filter, beq_iff_eq, Bool.and_eq_true, decide_eq_true_eq]
  constructor
  · rintro ⟨hmem, hseg⟩
    obtain ⟨hylen, hpre, hperm, hlive, hself⟩ := hwf.synsSound c hc y hmem
    rw [hseg] at hself
    exact ⟨hself, hpre, hperm⟩
  · rintro ⟨hmem, hpre, hperm⟩
    obtain ⟨hylen, hseg⟩ := hsmem y hmem
    refine ⟨hwf.synsComplete c hc y hylen hpre hperm ?_ ?_, hseg⟩
    · rw [hseg]; exact hs
    · rw [hseg]; exact hmem

theorem sum_countP_eq (l : List ℕ) (pr : ℕ → ℕ) (q : ℕ → Bool) :
    ∀ (A : List ℕ), A.Nodup →
      (A.map (fun c => l.countP (fun y => (pr y == c) && q y))).sum
        = l.countP (fun y => A.contains (pr y) && q y) := by
  intro A
  induction A with
  | nil =>
    intro _
    simp [List.countP_eq_zero]
  | cons c A' ih =>
    intro hnd
    obtain ⟨hc, hnd'⟩ := List.nodup_cons.mp hnd
    rw [List.map_cons, List.sum_cons, ih hnd']
    have hcong : ∀ y ∈ l,
        (((c :: A').contains (pr y)) && q y) = true ↔
          ((((pr y == c) && q y)) || ((A'.contains (pr y)) && q y)) = true := by
      intro y _
      rw [List.contains_cons]
      cases pr y == c <;> cases A'.contains (pr y) <;> cases q y <;> simp
    rw [List.countP_congr hcong, countP_or_disjoint]
    intro y _
    rintro ⟨h1, h2⟩
    rw [Bool.and_eq_true, beq_iff_eq] at h1
    rw [Bool.and_eq_true] at h2
    exact hc (by rw [← h1.1]; exact (List.elem_iff).mp h2.1)

theorem getD_replicate_zero (n s : ℕ) : (List.replicate n (0 : ℕ)).getD s 0 = 0 := by
  rw [List.getD_eq_getElem?_getD]
  rcases h : (List.replicate n (0 : ℕ))[s]? with _ | v
  · rfl
  · have := List.getElem?_mem h
    rw [List.eq_of_mem_replicate this]
    rfl

/-- The counting core of `computeActivity`: on a well-formed connected
index, entry `s` of the result is the number of connected synapses on
segment `s` whose presynaptic cell is among the (duplicate-free) active
cells. -/
theorem computeActivity_counts (conn : Connections) (A : List ℕ) (learn : Bool)
    (hwf : conn.ActivityWF A) (hA : A.Nodup) :
    ((conn.computeActivity A learn).1.length = conn.segments.length) ∧
      ∀ s, conn.liveSegment s →
        (conn.computeActivity A learn).1.getD s 0
          = (conn.synapsesForSegment s).countP
              (fun y => decide (conn.connectedThreshold
                  ≤ (conn.dataForSynapse y).permanence)
                && A.contains ((conn.dataForSynapse y).presynapticCell)) := by
  have key : ∀ s, conn.liveSegment s →
      (A.map (fun c => (mapGetD conn.connectedSegmentsForPresynapticCell c).count s)).sum
        = (conn.synapsesForSegment s).countP
            (fun y => decide (conn.connectedThreshold
                ≤ (conn.dataForSynapse y).permanence)
              && A.contains ((conn.dataForSynapse y).presynapticCell)) := by
    intro s hs
    have hmap : ∀ c ∈ A,
        (mapGetD conn.connectedSegmentsForPresynapticCell c).count s
          = (conn.synapsesForSegment s).countP
              (fun y => ((conn.dataForSynapse y).presynapticCell == c)
                && decide (conn.connectedThreshold
                  ≤ (conn.dataForSynapse y).permanence)) :=
      fun c hc => per_cell_count conn A hwf s hs c hc
    rw [List.map_congr_left hmap,
      sum_countP_eq (conn.synapsesForSegment s)
        (fun y => (conn.dataForSynapse y).presynapticCell)
        (fun y => decide (conn.connectedThreshold
          ≤ (conn.dataForSynapse y).permanence)) A hA]
    apply List.countP_congr
    intro y _
    cases decide (conn.connectedThreshold ≤ (conn.dataForSynapse y).permanence) <;>
      cases A.contains ((conn.dataForSynapse y).presynapticCell) <;> simp
  unfold computeActivity
  dsimp only
  split_ifs <;>
    · obtain ⟨hl, hv⟩ := foldl_activity_spec conn.connectedSegmentsForPresynapticCell A
        (List.replicate conn.segments.length 0)
      refine ⟨by rw [hl, List.length_replicate], ?_⟩
      intro s hs
      rw [hv s (by rw [List.length_replicate]; exact hs.1), getD_replicate_zero,
        Nat.zero_add]
      exact key s hs

/-- C3: on a well-formed state, `computeActivity(A)` for duplicate-free `A`
returns one entry per segment, and entry `s` counts the synapses on
segment `s` whose permanence is at least the (stored) connected threshold
and whose presynaptic cell lies in `A`. -/
theorem computeActivity_spec (conn : Connections) (A : List ℕ) (learn : Bool)
    (hwf : conn.ActivityWF A) (hA : A.Nodup) :
    ((conn.computeActivity A learn).1.length = conn.segments.length) ∧
      ∀ s, conn.liveSegment s →
        (conn.computeActivity A learn).1.getD s 0
          = (conn.synapsesForSegment s).countP
              (fun y => decide (conn.connectedThreshold
                  ≤ (conn.dataForSynapse y).permanence)
                && decide ((conn.dataForSynapse y).presynapticCell ∈ A)) := by
  obtain ⟨h1, h2⟩ := computeActivity_counts conn A learn hwf hA
  refine ⟨h1, ?_⟩
  intro s hs
  rw [h2 s hs]
  apply List.countP_congr
  intro y _
  rw [Bool.and_eq_true, Bool.and_eq_true, decide_eq_true_eq]
  constructor
  · rintro ⟨hq, hm⟩
    exact ⟨hq, by simpa using (List.elem_iff).mp hm⟩
  · rintro ⟨hq, hm⟩
    exact ⟨hq, (List.elem_iff).mpr (by simpa using hm)⟩

end Connections

/-- C1: the overlap vector returned by `SpatialPooler::compute` has one
entry per column, and entry `c` equals the number of connected synapses on
column `c`'s segment (segment handle `c`) whose presynaptic input bit is
active in the input — the value delivered through
`Connections.computeActivity`. -/
theorem SpatialPooler.compute_overlaps_spec (sp : SpatialPooler) (input : List ℕ)
    (learn : Bool) (hwf : sp.connections.ActivityWF input) (hin : input.Nodup)
    (hseg : sp.connections.segments.length = sp.numColumns)
    (hlive : ∀ c, c < sp.numColumns → sp.connections.liveSegment c) :
    ((sp.compute input learn).1.length = sp.numColumns) ∧
      ∀ c, c < sp.numColumns →
        (sp.compute input learn).1.getD c 0
          = (sp.connections.synapsesForSegment c).countP
              (fun y => decide (sp.connections.connectedThreshold
                  ≤ (sp.connections.dataForSynapse y).permanence)
                && decide ((sp.connections.dataForSynapse y).presynapticCell ∈ input)) := by
  obtain ⟨h1, h2⟩ := Connections.computeActivity_counts sp.connections input learn hwf hin
  have hout : (sp.compute input learn).1
      = (sp.connections.computeActivity input learn).1 := rfl
  rw [hout]
  refine ⟨by rw [h1, hseg], ?_⟩
  intro c hc
  rw [h2 c (hlive c hc)]
  apply List.countP_congr
  intro y _
  rw [Bool.and_eq_true, Bool.and_eq_true, decide_eq_true_eq]
  constructor
  · rintro ⟨hq, hm⟩
    exact ⟨hq, by simpa using (List.elem_iff).mp hm⟩
  · rintro ⟨hq, hm⟩
    exact ⟨hq, (List.elem_iff).mpr (by simpa using hm)⟩

namespace Connections

instance : IsTotal ℚ (fun a b : ℚ => b ≤ a) := ⟨fun a b => le_total b a⟩

instance : IsTrans ℚ (fun a b : ℚ => b ≤ a) := ⟨fun _ _ _ h1 h2 => h2.trans h1⟩

/-- If `q` is at most the `t`-th greatest value of a list, at least `t`
entries are at least `q`. -/
theorem countP_ge_of_le_nth (perms : List ℚ) (t : ℕ) (h1 : 1 ≤ t)
    (h2 : t ≤ perms.length) (q : ℚ)
    (hq : q ≤ (perms.insertionSort (fun a b => b ≤ a)).getD (t - 1) 0) :
    t ≤ perms.countP (fun p => decide (q ≤ p)) := by
  set sorted := perms.insertionSort (fun a b => b ≤ a) with hsorted
  have hlen : sorted.length = perms.length := List.length_insertionSort _ _
  have hsort : sorted.Pairwise (fun a b : ℚ => b ≤ a) :=
    List.sorted_insertionSort (fun a b : ℚ => b ≤ a) perms
  have hcp : perms.countP (fun p => decide (q ≤ p))
      = sorted.countP (fun p => decide (q ≤ p)) :=
    ((List.perm_insertionSort (fun a b : ℚ => b ≤ a) perms).countP_eq _).symm
  have htake : ∀ x ∈ sorted.take t, (fun p => decide (q ≤ p)) x = true := by
    intro x hx
    obtain ⟨i, hi, hix⟩ := List.mem_iff_getElem.mp hx
    have hit : i < t := lt_of_lt_of_le hi (List.length_take_le _ _)
    have hilen : i < sorted.length := by
      have := hi
      rw [List.length_take] at this
      exact lt_of_lt_of_le this (min_le_right _ _)
    have hsx : sorted[i] = x := by rw [List.getElem_take] at hix; exact hix
    have ht1 : t - 1 < sorted.length := by omega
    have hnth : sorted.getD (t - 1) 0 = sorted[t - 1] := List.getD_eq_getElem _ _ ht1
    have hle : sorted[t - 1] ≤ sorted[i] := by
      rcases Nat.lt_or_ge i (t - 1) with h | h
      · exact List.pairwise_iff_getElem.mp hsort i (t - 1) hilen ht1 h
      · have : i = t - 1 := by omega
        subst this
        exact le_rfl
    simp only [decide_eq_true_eq]
    rw [← hsx]
    exact le_trans (hq.trans (le_of_eq hnth)) hle
  have hsplit : sorted.countP (fun p => decide (q ≤ p))
      = (sorted.take t).countP (fun p => decide (q ≤ p))
        + (sorted.drop t).countP (fun p => decide (q ≤ p)) := by
    rw [← List.countP_append, List.take_append_drop]
  have htlen : (sorted.take t).length = t := by
    rw [List.length_take, hlen]
    omega
  rw [hcp, hsplit, List.countP_eq_length.mpr htake, htlen]
  omega

/-- If `q` strictly exceeds the `t`-th greatest value of a list, fewer than
`t` entries are at least `q`. -/
theorem countP_le_of_nth_lt (perms : List ℚ) (t : ℕ) (h1 : 1 ≤ t)
    (h2 : t ≤ perms.length) (q : ℚ)
    (hq : (perms.insertionSort (fun a b => b ≤ a)).getD (t - 1) 0 < q) :
    perms.countP (fun p => decide (q ≤ p)) ≤ t - 1 := by
  set sorted := perms.insertionSort (fun a b => b ≤ a) with hsorted
  have hlen : sorted.length = perms.length := List.length_insertionSort _ _
  have hsort : sorted.Pairwise (fun a b : ℚ => b ≤ a) :=
    List.sorted_insertionSort (fun a b : ℚ => b ≤ a) perms
  have hcp : perms.countP (fun p => decide (q ≤ p))
      = sorted.countP (fun p => decide (q ≤ p)) :=
    ((List.perm_insertionSort (fun a b : ℚ => b ≤ a) perms).countP_eq _).symm
  have ht1 : t - 1 < sorted.length := by omega
  have hnth : sorted.getD (t - 1) 0 = sorted[t - 1] := List.getD_eq_getElem _ _ ht1
  have hdrop : (sorted.drop (t - 1)).countP (fun p => decide (q ≤ p)) = 0 := by
    refine List.countP_eq_zero.mpr ?_
    intro x hx
    obtain ⟨j, hj, hxj⟩ := List.mem_iff_getElem.mp hx
    rw [List.getElem_drop] at hxj
    have hjlen : t - 1 + j < sorted.length := by
      have := hj
      rw [List.length_drop] at this
      omega
    have hle : sorted[t - 1 + j] ≤ sorted[t - 1] := by
      rcases Nat.eq_zero_or_pos j with rfl | hjpos
      · simp
      · exact List.pairwise_iff_getElem.mp hsort (t - 1) (t - 1 + j) ht1 hjlen
          (by omega)
    have : x < q := by
      rw [← hxj]
      exact lt_of_le_of_lt hle (by rw [← hnth]; exact hq)
    simpa [not_le] using this
  have hsplit : sorted.countP (fun p => decide (q ≤ p))
      = (sorted.take (t - 1)).countP (fun p => decide (q ≤ p))
        + (sorted.drop (t - 1)).countP (fun p => decide (q ≤ p)) := by
    rw [← List.countP_append, List.take_append_drop]
  rw [hcp, hsplit, hdrop, Nat.add_zero]
  exact le_trans (List.countP_le_length _) (by rw [List.length_take]; omega)

/-- The permanence bump applied by `bumpSegment`, tracked per synapse: every
synapse in the (duplicate-free, in-range) iteration list ends at the
clamped `old + delta`, everything else is untouched, and no segment's
synapse list, the threshold, or the slot count changes. -/
theorem bump_fold (delta : ℚ) :
    ∀ (l : List ℕ) (c : Connections), l.Nodup → (∀ y ∈ l, y < c.synapses.length) →
      (∀ t, (l.foldl (fun c y =>
          c.updateSynapsePermanence y ((c.dataForSynapse y).permanence + delta)) c
            ).synapsesForSegment t = c.synapsesForSegment t) ∧
        (l.foldl (fun c y =>
          c.updateSynapsePermanence y ((c.dataForSynapse y).permanence + delta)) c
            ).connectedThreshold = c.connectedThreshold ∧
        (l.foldl (fun c y =>
          c.updateSynapsePermanence y ((c.dataForSynapse y).permanence + delta)) c
            ).synapses.length = c.synapses.length ∧
        (∀ y ∈ l, ((l.foldl (fun c y =>
          c.updateSynapsePermanence y ((c.dataForSynapse y).permanence + delta)) c
            ).dataForSynapse y).permanence
          = max (min ((c.dataForSynapse y).permanence + delta) maxPermanence)
              minPermanence) ∧
        (∀ k, k ∉ l → ((l.foldl (fun c y =>
          c.updateSynapsePermanence y ((c.dataForSynapse y).permanence + delta)) c
            ).dataForSynapse k).permanence = (c.dataForSynapse k).permanence) := by
  intro l
  induction l with
  | nil => exact fun c _ _ => ⟨fun t => rfl, rfl, rfl, by simp, fun k _ => rfl⟩
  | cons y0 rest ih =>
    intro c hnd hmem
    obtain ⟨hy0, hndr⟩ := List.nodup_cons.mp hnd
    have hy0len : y0 < c.synapses.length := hmem y0 (List.mem_cons_self _ _)
    obtain ⟨u1, _, _, _, _, _, _, _, _, _, _, u12, u13⟩ :=
      c.updateSynapsePermanence_spec y0 ((c.dataForSynapse y0).permanence + delta)
    set c1 := c.updateSynapsePermanence y0 ((c.dataForSynapse y0).permanence + delta)
      with hc1
    have hrl : ∀ y ∈ rest, y < c1.synapses.length := by
      intro y hy
      rw [u1]
      exact hmem y (List.mem_cons_of_mem _ hy)
    obtain ⟨i1, i2, i3, i4, i5⟩ := ih c1 hndr hrl
    rw [List.foldl_cons]
    refine ⟨?_, ?_, ?_, ?_, ?_⟩
    · intro t
      rw [i1 t]
      exact (c.updateSynapsePermanence_spec y0 _).2.2.2.1 t
    · rw [i2]
      exact (c.updateSynapsePermanence_spec y0 _).2.2.1
    · rw [i3, u1]
    · intro y hy
      rcases List.mem_cons.mp hy with rfl | hyr
      · rw [i5 y hy0, (u12 hy0len).1]
      · rw [i4 y hyr, (u13 y (fun h => hy0 (h ▸ hyr))).1]
    · intro k hk
      have hk0 : k ≠ y0 := fun h => hk (h ▸ List.mem_cons_self _ _)
      have hkr : k ∉ rest := fun h => hk (List.mem_cons_of_mem _ h)
      rw [i5 k hkr, (u13 k hk0).1]

/-- C8: `raisePermanencesToThreshold(segment, k)` connects at least
`min(k, |synapses|)` synapses; when `1 ≤ k ≤ |synapses|`, the call changes
nothing if the `k`-th greatest permanence already reaches the stored
connected threshold, and otherwise equals a uniform `bumpSegment` by the
shortfall `threshold − k-th greatest permanence` (each write clamped to
`[0,1]` by `updateSynapsePermanence`). -/
theorem raisePermanencesToThreshold_spec (conn : Connections) (s k : ℕ)
    (hnd : (conn.synapsesForSegment s).Nodup)
    (hmem : ∀ y ∈ conn.synapsesForSegment s, y < conn.synapses.length)
    (hcache : (conn.segments.getD s default).numConnected
      = (conn.synapsesForSegment s).countP
          (fun y => decide (conn.connectedThreshold
            ≤ (conn.dataForSynapse y).permanence)))
    (hθ1 : conn.connectedThreshold ≤ 1) :
    (min k (conn.synapsesForSegment s).length
        ≤ ((conn.raisePermanencesToThreshold s k).synapsesForSegment s).countP
            (fun y => decide ((conn.raisePermanencesToThreshold s k).connectedThreshold
              ≤ ((conn.raisePermanencesToThreshold s k).dataForSynapse y).permanence))) ∧
      (1 ≤ k → k ≤ (conn.synapsesForSegment s).length →
        ((conn.connectedThreshold
            ≤ conn.nthGreatestPermanence (conn.synapsesForSegment s) k →
          conn.raisePermanencesToThreshold s k = conn) ∧
        (conn.nthGreatestPermanence (conn.synapsesForSegment s) k
            < conn.connectedThreshold →
          conn.raisePermanencesToThreshold s k
            = conn.bumpSegment s
                (conn.connectedThreshold
                  - conn.nthGreatestPermanence (conn.synapsesForSegment s) k)))) := by
  unfold raisePermanencesToThreshold
  dsimp only
  by_cases hk0 : k = 0
  · subst hk0
    rw [if_pos rfl]
    exact ⟨by simp, fun h1 _ => absurd h1 (by omega)⟩
  rw [if_neg hk0]
  by_cases hnc : k ≤ (conn.segments.getD s default).numConnected
  · rw [if_pos hnc]
    rw [hcache] at hnc
    refine ⟨le_trans (min_le_left _ _) hnc, ?_⟩
    intro hk1 hkn
    refine ⟨fun _ => rfl, ?_⟩
    intro hlt
    exfalso
    unfold nthGreatestPermanence at hlt
    have hle := countP_le_of_nth_lt
      ((conn.synapsesForSegment s).map (fun y => (conn.dataForSynapse y).permanence)) k
      hk1 (by rw [List.length_map]; exact hkn) conn.connectedThreshold hlt
    rw [List.countP_map] at hle
    have : (conn.synapsesForSegment s).countP
        ((fun p => decide (conn.connectedThreshold ≤ p)) ∘
          fun y => (conn.dataForSynapse y).permanence)
        = (conn.synapsesForSegment s).countP
          (fun y => decide (conn.connectedThreshold
            ≤ (conn.dataForSynapse y).permanence)) := rfl
    rw [this] at hle
    omega
  rw [if_neg hnc]
  by_cases hemp : (conn.segments.getD s default).synapses.isEmpty
  · rw [if_pos hemp]
    have hnil : conn.synapsesForSegment s = [] := List.isEmpty_iff.mp hemp
    refine ⟨by rw [hnil]; simp, ?_⟩
    intro hk1 hkn
    rw [hnil] at hkn
    simp at hkn
    omega
  rw [if_neg hemp]
  have hne : conn.synapsesForSegment s ≠ [] := fun h => hemp (List.isEmpty_iff.mpr h)
  have hn1 : 1 ≤ (conn.synapsesForSegment s).length :=
    Nat.pos_of_ne_zero (fun h => hne (List.length_eq_zero.mp h))
  set n := (conn.synapsesForSegment s).length with hn
  set t := min k (conn.segments.getD s default).synapses.length with ht
  have htn : t = min k n := rfl
  have ht1 : 1 ≤ t := by
    rw [htn]
    exact le_min (by omega) hn1
  have htle : t ≤ n := by
    rw [htn]
    exact min_le_right _ _
  set nthT := conn.nthGreatestPermanence (conn.segments.getD s default).synapses t
    with hnthT
  have hperm_len :
      ((conn.synapsesForSegment s).map
        (fun y => (conn.dataForSynapse y).permanence)).length = n := by
    rw [List.length_map]
  have hnth_getD : nthT
      = (((conn.synapsesForSegment s).map
          (fun y => (conn.dataForSynapse y).permanence)).insertionSort
            (fun a b => b ≤ a)).getD (t - 1) 0 := rfl
  by_cases hinc : conn.connectedThreshold - nthT ≤ 0
  · rw [if_pos hinc]
    have hθnth : conn.connectedThreshold ≤ nthT := by linarith
    constructor
    · have := countP_ge_of_le_nth
        ((conn.synapsesForSegment s).map (fun y => (conn.dataForSynapse y).permanence))
        t ht1 (by rw [hperm_len]; exact htle) conn.connectedThreshold
        (hnth_getD ▸ hθnth)
      rw [List.countP_map] at this
      exact le_trans (le_of_eq htn.symm) this
    · intro hk1 hkn
      have htk : t = k := by rw [htn]; exact min_eq_left hkn
      refine ⟨fun _ => rfl, ?_⟩
      intro hlt
      exfalso
      have : conn.nthGreatestPermanence (conn.synapsesForSegment s) k = nthT := by
        rw [hnthT, htk]
        rfl
      rw [this] at hlt
      linarith
  · rw [if_neg hinc]
    have hnthθ : nthT < conn.connectedThreshold := by
      by_contra h
      exact hinc (by linarith [not_lt.mp h])
    constructor
    · unfold bumpSegment
      obtain ⟨b1, b2, b3, b4, b5⟩ := bump_fold (conn.connectedThreshold - nthT)
        (conn.synapsesForSegment s) conn hnd hmem
      rw [b1 s, b2]
      have hbase := countP_ge_of_le_nth
        ((conn.synapsesForSegment s).map (fun y => (conn.dataForSynapse y).permanence))
        t ht1 (by rw [hperm_len]; exact htle) nthT (le_of_eq hnth_getD)
      rw [List.countP_map] at hbase
      have hmono : (conn.synapsesForSegment s).countP
          ((fun p => decide (nthT ≤ p)) ∘ fun y => (conn.dataForSynapse y).permanence)
          ≤ (conn.synapsesForSegment s).countP
            (fun y => decide (conn.connectedThreshold
              ≤ (((conn.synapsesForSegment s).foldl (fun c y =>
                c.updateSynapsePermanence y
                  ((c.dataForSynapse y).permanence
                    + (conn.connectedThreshold - nthT))) conn).dataForSynapse
                  y).permanence)) := by
        apply List.countP_mono_left
        intro y hy hp
        simp only [Function.comp, decide_eq_true_eq] at hp
        simp only [decide_eq_true_eq]
        rw [b4 y hy]
        have hsum : conn.connectedThreshold
            ≤ (conn.dataForSynapse y).permanence
              + (conn.connectedThreshold - nthT) := by linarith
        rcases le_total ((conn.dataForSynapse y).permanence
            + (conn.connectedThreshold - nthT)) maxPermanence with hle1 | hle1
        · rw [min_eq_left hle1]
          exact le_trans hsum (le_max_left _ _)
        · rw [min_eq_right hle1]
          exact le_trans (by simpa [maxPermanence] using hθ1) (le_max_left _ _)
      exact le_trans (le_of_eq htn.symm) (le_trans hbase hmono)
    · intro hk1 hkn
      have htk : t = k := by rw [htn]; exact min_eq_left hkn
      have hsame : conn.nthGreatestPermanence (conn.synapsesForSegment s) k = nthT := by
        rw [hnthT, htk]
        rfl
      refine ⟨?_, ?_⟩
      · intro hge
        exfalso
        rw [hsame] at hge
        linarith
      · intro _
        rw [hsame]

/-- `swapRemoveFirst` on a duplicate-free list containing `y` removes
exactly `y`: the length drops by one, membership loses exactly `y`, and
the result is still duplicate-free. -/
theorem swapRemoveFirst_spec (l : List ℕ) (y : ℕ) (hnd : l.Nodup) (hy : y ∈ l) :
    (swapRemoveFirst l y).length = l.length - 1 ∧
      (∀ x, x ∈ swapRemoveFirst l y ↔ x ∈ l ∧ x ≠ y) ∧
      (swapRemoveFirst l y).Nodup := by
  have hne : l ≠ [] := List.ne_nil_of_mem hy
  have hfex : l.findIdx? (fun x => x == y) ≠ none := by
    rw [Ne, List.findIdx?_eq_none_iff]
    push_neg
    exact ⟨y, hy, by simp⟩
  obtain ⟨i, hfi⟩ := Option.ne_none_iff_exists'.mp hfex
  obtain ⟨hilen, hpi, -⟩ := List.findIdx?_eq_some_iff_getElem.mp hfi
  have hliy : l.get ⟨i, hilen⟩ = y := by
    rw [List.get_eq_getElem]
    simpa using hpi
  have hlen1 : 1 ≤ l.length := List.length_pos.mpr hne
  have hl1 : l.length - 1 < l.length := by omega
  have hr : swapRemoveFirst l y = (l.set i (l.getLast hne)).dropLast := by
    unfold swapRemoveFirst
    rw [hfi, List.getLast?_eq_getLast l hne]
  have hlast : l.getLast hne = l.get ⟨l.length - 1, hl1⟩ := by
    rw [List.get_eq_getElem]
    exact List.getLast_eq_getElem l hne
  rw [hr]
  have hRlen : ((l.set i (l.getLast hne)).dropLast).length = l.length - 1 := by
    rw [List.length_dropLast, List.length_set]
  have hRget : ∀ (j : ℕ) (hj : j < l.length - 1),
      ((l.set i (l.getLast hne)).dropLast).get ⟨j, by rw [hRlen]; exact hj⟩
        = if i = j then l.get ⟨l.length - 1, hl1⟩ else l.get ⟨j, by omega⟩ := by
    intro j hj
    rw [List.get_eq_getElem, List.getElem_dropLast, List.getElem_set]
    split_ifs with hij
    · rw [← hlast]
    · rw [List.get_eq_getElem]
  refine ⟨hRlen, ?_, ?_⟩
  · intro x
    constructor
    · intro hx
      obtain ⟨⟨j, hj⟩, hjx⟩ := List.mem_iff_get.mp hx
      have hj' : j < l.length - 1 := by rw [hRlen] at hj; exact hj
      rw [hRget j hj'] at hjx
      by_cases hij : i = j
      · rw [if_pos hij] at hjx
        refine ⟨hjx ▸ List.get_mem l _ _, ?_⟩
        intro hxy
        have hgeq : l.get ⟨l.length - 1, hl1⟩ = l.get ⟨i, hilen⟩ := by
          rw [hjx, hxy, hliy]
        have hvi : l.length - 1 = i := congrArg Fin.val (hnd.get_inj_iff.mp hgeq)
        omega
      · rw [if_neg hij] at hjx
        refine ⟨hjx ▸ List.get_mem l _ _, ?_⟩
        intro hxy
        have hgeq : l.get ⟨j, by omega⟩ = l.get ⟨i, hilen⟩ := by
          rw [hjx, hxy, hliy]
        have hvi : j = i := congrArg Fin.val (hnd.get_inj_iff.mp hgeq)
        omega
    · rintro ⟨hx, hxy⟩
      obtain ⟨⟨jx, hjx⟩, hjxv⟩ := List.mem_iff_get.mp hx
      have hjxi : jx ≠ i := by
        intro h
        apply hxy
        rw [← hjxv]
        have hfin : (⟨jx, hjx⟩ : Fin l.length) = ⟨i, hilen⟩ := Fin.ext h
        rw [hfin, hliy]
      by_cases hjlast : jx = l.length - 1
      · have hi' : i < l.length - 1 := by omega
        refine List.mem_iff_get.mpr ⟨⟨i, by rw [hRlen]; exact hi'⟩, ?_⟩
        rw [hRget i hi', if_pos rfl, ← hjxv]
        congr 1
        exact Fin.ext hjlast.symm
      · have hj' : jx < l.length - 1 := by omega
        refine List.mem_iff_get.mpr ⟨⟨jx, by rw [hRlen]; exact hj'⟩, ?_⟩
        rw [hRget jx hj', if_neg (fun h => hjxi h.symm), ← hjxv]
  · rw [List.nodup_iff_injective_get]
    rintro ⟨j1, hj1⟩ ⟨j2, hj2⟩ heq
    have hj1' : j1 < l.length - 1 := by rw [hRlen] at hj1; exact hj1
    have hj2' : j2 < l.length - 1 := by rw [hRlen] at hj2; exact hj2
    rw [hRget j1 hj1', hRget j2 hj2'] at heq
    apply Fin.ext
    dsimp only
    by_cases h1 : i = j1 <;> by_cases h2 : i = j2
    · omega
    · rw [if_pos h1, if_neg h2] at heq
      have hv : l.length - 1 = j2 := congrArg Fin.val (hnd.get_inj_iff.mp heq)
      omega
    · rw [if_neg h1, if_pos h2] at heq
      have hv : j1 = l.length - 1 := congrArg Fin.val (hnd.get_inj_iff.mp heq)
      omega
    · rw [if_neg h1, if_neg h2] at heq
      have hv : j1 = j2 := congrArg Fin.val (hnd.get_inj_iff.mp heq)
      omega

/-- `destroySynapse` on a live synapse of segment `s` replaces that
segment's synapse list by `swapRemoveFirst` of it and leaves every
synapse's permanence / presynaptic cell / segment fields untouched (the
destroyed slot keeps its old data: no sentinel is written). -/
theorem destroySynapse_effect (conn : Connections) (s y : ℕ)
    (hylen : y < conn.synapses.length)
    (hperm : (conn.dataForSynapse y).permanence ≠ -1)
    (hseg : (conn.dataForSynapse y).segment = s)
    (hslen : s < conn.segments.length) :
    (conn.destroySynapse y).synapsesForSegment s
        = swapRemoveFirst (conn.synapsesForSegment s) y ∧
      (∀ k, ((conn.destroySynapse y).dataForSynapse k).permanence
            = (conn.dataForSynapse k).permanence ∧
          ((conn.destroySynapse y).dataForSynapse k).presynapticCell
            = (conn.dataForSynapse k).presynapticCell ∧
          ((conn.destroySynapse y).dataForSynapse k).segment
            = (conn.dataForSynapse k).segment) := by
  have hex : ¬¬ (conn.synapseExistsFast y = true) := by
    intro hc
    apply hc
    unfold synapseExistsFast
    simp only [Bool.and_eq_true, decide_eq_true_eq, bne_iff_ne, Ne]
    exact ⟨hylen, hperm⟩
  unfold destroySynapse
  rw [if_neg hex]
  dsimp only
  rw [hseg]
  split_ifs with h1 h2 h3
  · constructor
    · unfold synapsesForSegment
      dsimp only
      rw [getD_set_self _ _ _ (by rw [List.length_set]; exact hslen)]
      dsimp only
      rw [getD_set_self _ _ _ hslen]
    · intro k
      unfold dataForSynapse
      dsimp only
      exact removeMap_fields _ _ _ _ k
  · constructor
    · unfold synapsesForSegment
      dsimp only
      rw [getD_set_self _ _ _ (by rw [List.length_set]; exact hslen)]
      dsimp only
      rw [getD_set_self _ _ _ hslen]
    · intro k
      unfold dataForSynapse
      dsimp only
      exact removeMap_fields _ _ _ _ k
  · constructor
    · unfold synapsesForSegment
      dsimp only
      rw [getD_set_self _ _ _ hslen]
    · intro k
      unfold dataForSynapse
      dsimp only
      exact removeMap_fields _ _ _ _ k
  · constructor
    · unfold synapsesForSegment
      dsimp only
      rw [getD_set_self _ _ _ hslen]
    · intro k
      unfold dataForSynapse
      dsimp only
      exact removeMap_fields _ _ _ _ k

/-- Folding `destroySynapse` over a duplicate-free list of live synapses
of segment `s` removes exactly those handles from the segment's list,
preserving every synapse's data fields, list lengths, and the
destroyed-segment free-list. -/
theorem destroy_fold (s : ℕ) :
    ∀ (dl : List ℕ) (c : Connections),
      dl.Nodup →
      (∀ y ∈ dl, y ∈ c.synapsesForSegment s ∧ y < c.synapses.length ∧
        (c.dataForSynapse y).permanence ≠ -1 ∧ (c.dataForSynapse y).segment = s) →
      (c.synapsesForSegment s).Nodup →
      s < c.segments.length →
      ((dl.foldl (fun a y => a.destroySynapse y) c).synapsesForSegment s).length
          = (c.synapsesForSegment s).length - dl.length ∧
        (∀ x, x ∈ (dl.foldl (fun a y => a.destroySynapse y) c).synapsesForSegment s
          ↔ x ∈ c.synapsesForSegment s ∧ x ∉ dl) ∧
        (dl.foldl (fun a y => a.destroySynapse y) c).destroyedSegments
          = c.destroyedSegments ∧
        (∀ k, ((dl.foldl (fun a y => a.destroySynapse y) c).dataForSynapse k).permanence
              = (c.dataForSynapse k).permanence ∧
            ((dl.foldl (fun a y => a.destroySynapse y) c).dataForSynapse k).presynapticCell
              = (c.dataForSynapse k).presynapticCell ∧
            ((dl.foldl (fun a y => a.destroySynapse y) c).dataForSynapse k).segment
              = (c.dataForSynapse k).segment) ∧
        (dl.foldl (fun a y => a.destroySynapse y) c).synapses.length
          = c.synapses.length ∧
        ((dl.foldl (fun a y => a.destroySynapse y) c).synapsesForSegment s).Nodup ∧
        (dl.foldl (fun a y => a.destroySynapse y) c).segments.length
          = c.segments.length := by
  intro dl
  induction dl with
  | nil =>
    intro c _ _ hnd hs
    exact ⟨by simp, fun x => by simp, rfl, fun k => ⟨rfl, rfl, rfl⟩, rfl, hnd, rfl⟩
  | cons y0 rest ih =>
    intro c hnd hys hsnd hs
    obtain ⟨hy0s, hy0len, hy0p, hy0seg⟩ := hys y0 (List.mem_cons_self y0 rest)
    obtain ⟨heff, hfields⟩ := destroySynapse_effect c s y0 hy0len hy0p hy0seg hs
    obtain ⟨hslen, hsmem, hsnd'⟩ := swapRemoveFirst_spec _ y0 hsnd hy0s
    obtain ⟨hp1, hp2, hp3, hp4, hp5, hp6⟩ := destroySynapse_preserves c y0
    rw [List.foldl_cons]
    have hrest : ∀ y ∈ rest, y ∈ (c.destroySynapse y0).synapsesForSegment s ∧
        y < (c.destroySynapse y0).synapses.length ∧
        ((c.destroySynapse y0).dataForSynapse y).permanence ≠ -1 ∧
        ((c.destroySynapse y0).dataForSynapse y).segment = s := by
      intro y hy
      obtain ⟨a1, a2, a3, a4⟩ := hys y (List.mem_cons_of_mem y0 hy)
      have hyne : y ≠ y0 := by
        intro h
        exact (List.nodup_cons.mp hnd).1 (h ▸ hy)
      obtain ⟨f1, f2, f3⟩ := hfields y
      refine ⟨?_, ?_, ?_, ?_⟩
      · rw [heff]
        exact (hsmem y).mpr ⟨a1, hyne⟩
      · rw [hp6]; exact a2
      · rw [f1]; exact a3
      · rw [f3]; exact a4
    have hnd2 : ((c.destroySynapse y0).synapsesForSegment s).Nodup := by
      rw [heff]; exact hsnd'
    have hs2 : s < (c.destroySynapse y0).segments.length := by
      rw [hp2]; exact hs
    obtain ⟨i1, i2, i3, i4, i5, i6, i7⟩ :=
      ih (c.destroySynapse y0) (List.nodup_cons.mp hnd).2 hrest hnd2 hs2
    refine ⟨?_, ?_, i3.trans hp4, ?_, i5.trans hp6, i6, i7.trans hp2⟩
    · rw [i1, heff, hslen, List.length_cons]
      omega
    · intro x
      rw [i2 x, heff, hsmem x, List.mem_cons]
      constructor
      · rintro ⟨⟨hx1, hx2⟩, hx3⟩
        exact ⟨hx1, fun h => h.elim hx2 hx3⟩
      · rintro ⟨hx1, hx2⟩
        exact ⟨⟨hx1, fun h => hx2 (Or.inl h)⟩, fun h => hx2 (Or.inr h)⟩
    · intro k
      obtain ⟨j1, j2, j3⟩ := i4 k
      obtain ⟨f1, f2, f3⟩ := hfields k
      exact ⟨j1.trans f1, j2.trans f2, j3.trans f3⟩

/-- The synapse-destruction loop of `destroySegment` empties the segment's
synapse list when the fuel equals the list length at entry (the loop of
Connections.cpp:269-270 runs until `synapses.empty()`). -/
theorem destroyAll_empties (s : ℕ) :
    ∀ (fuel : ℕ) (c : Connections),
      fuel = (c.synapsesForSegment s).length →
      (c.synapsesForSegment s).Nodup →
      (∀ y ∈ c.synapsesForSegment s, y < c.synapses.length ∧
        (c.dataForSynapse y).permanence ≠ -1 ∧ (c.dataForSynapse y).segment = s) →
      s < c.segments.length →
      (c.destroyAllSynapsesOnSegment s fuel).synapsesForSegment s = [] := by
  intro fuel
  induction fuel with
  | zero =>
    intro c hf _ _ _
    unfold destroyAllSynapsesOnSegment
    exact List.eq_nil_of_length_eq_zero hf.symm
  | succ n ih =>
    intro c hf hnd hys hs
    unfold destroyAllSynapsesOnSegment
    cases hlast : (c.synapsesForSegment s).getLast? with
    | none =>
      rw [List.getLast?_eq_none_iff] at hlast
      rw [hlast] at hf
      cases hf
    | some y =>
      have hymem : y ∈ c.synapsesForSegment s := List.mem_of_getLast?_eq_some hlast
      obtain ⟨hylen, hperm, hseg⟩ := hys y hymem
      obtain ⟨heff, hfields⟩ := destroySynapse_effect c s y hylen hperm hseg hs
      obtain ⟨hlen', hmem', hnd'⟩ := swapRemoveFirst_spec _ y hnd hymem
      obtain ⟨hp1, hp2, hp3, hp4, hp5, hp6⟩ := destroySynapse_preserves c y
      apply ih
      · rw [heff, hlen', ← hf]
        omega
      · rw [heff]; exact hnd'
      · intro y2 hy2
        rw [heff] at hy2
        obtain ⟨hy2c, -⟩ := (hmem' y2).mp hy2
        obtain ⟨a1, a2, a3⟩ := hys y2 hy2c
        obtain ⟨f1, f2, f3⟩ := hfields y2
        exact ⟨hp6 ▸ a1, f1 ▸ a2, f3 ▸ a3⟩
      · rw [hp2]; exact hs

/-- `destroySegment` on a well-formed segment empties the segment's synapse
list and appends the handle to the destroyed-segment free-list. -/
theorem destroySegment_segSyns (c : Connections) (s : ℕ)
    (hnd : (c.synapsesForSegment s).Nodup)
    (hys : ∀ y ∈ c.synapsesForSegment s, y < c.synapses.length ∧
      (c.dataForSynapse y).permanence ≠ -1 ∧ (c.dataForSynapse y).segment = s)
    (hs : s < c.segments.length) :
    (c.destroySegment s).synapsesForSegment s = [] ∧
      (c.destroySegment s).destroyedSegments = c.destroyedSegments ++ [s] := by
  have h1 := destroyAll_empties s (c.synapsesForSegment s).length c rfl hnd hys hs
  unfold destroySegment
  dsimp only
  constructor
  · unfold synapsesForSegment at h1 ⊢
    dsimp only
    exact h1
  · rw [(destroyAllSynapsesOnSegment_preserves (c.synapsesForSegment s).length c s).2.2.2.1]

/-- The pruning test of `adaptSegment` (Connections.cpp:507-508) as a
Boolean predicate on synapse handles: pruning is enabled and the updated
permanence would fall strictly below `minPermanence + Epsilon`. -/
def adaptPrunes (inputDense : List Bool) (inc dec : Permanence) (prune : Bool)
    (c : Connections) (y : ℕ) : Bool :=
  prune && decide ((c.dataForSynapse y).permanence
      + (if inputDense.getD (c.dataForSynapse y).presynapticCell false then inc else -dec)
    < minPermanence + Epsilon)

/-- One `adaptStep` preserves every segment's synapse list, the list
lengths, the destroyed-segment free-list, and all other synapses' data;
the deferred-destruction list grows by the synapse exactly when
`adaptPrunes` holds, in which case the synapse's permanence is untouched;
the processed synapse's permanence is otherwise either unchanged or
clamped to at least `minPermanence`. -/
theorem adaptStep_effect (inputDense : List Bool) (inc dec : Permanence)
    (prune : Bool) (c : Connections) (dl : List ℕ) (y : ℕ)
    (hy : y < c.synapses.length) :
    (∀ t, (adaptStep inputDense inc dec prune (c, dl) y).1.synapsesForSegment t
        = c.synapsesForSegment t) ∧
      (adaptStep inputDense inc dec prune (c, dl) y).1.synapses.length
        = c.synapses.length ∧
      (adaptStep inputDense inc dec prune (c, dl) y).1.destroyedSegments
        = c.destroyedSegments ∧
      (adaptStep inputDense inc dec prune (c, dl) y).1.segments.length
        = c.segments.length ∧
      (adaptStep inputDense inc dec prune (c, dl) y).2
        = (if adaptPrunes inputDense inc dec prune c y then dl ++ [y] else dl) ∧
      (∀ k, k ≠ y →
        ((adaptStep inputDense inc dec prune (c, dl) y).1.dataForSynapse k).permanence
            = (c.dataForSynapse k).permanence ∧
          ((adaptStep inputDense inc dec prune (c, dl) y).1.dataForSynapse k).presynapticCell
            = (c.dataForSynapse k).presynapticCell ∧
          ((adaptStep inputDense inc dec prune (c, dl) y).1.dataForSynapse k).segment
            = (c.dataForSynapse k).segment) ∧
      (∀ k,
        ((adaptStep inputDense inc dec prune (c, dl) y).1.dataForSynapse k).presynapticCell
            = (c.dataForSynapse k).presynapticCell ∧
          ((adaptStep inputDense inc dec prune (c, dl) y).1.dataForSynapse k).segment
            = (c.dataForSynapse k).segment) ∧
      (adaptPrunes inputDense inc dec prune c y = true →
        ((adaptStep inputDense inc dec prune (c, dl) y).1.dataForSynapse y).permanence
          = (c.dataForSynapse y).permanence) ∧
      (((adaptStep inputDense inc dec prune (c, dl) y).1.dataForSynapse y).permanence
          = (c.dataForSynapse y).permanence ∨
        minPermanence
          ≤ ((adaptStep inputDense inc dec prune (c, dl) y).1.dataForSynapse y).permanence) := by
  by_cases hc : prune ∧ (c.dataForSynapse y).permanence
      + (if inputDense.getD (c.dataForSynapse y).presynapticCell false then inc else -dec)
    < minPermanence + Epsilon
  · have hcB : adaptPrunes inputDense inc dec prune c y = true := by
      simp only [adaptPrunes, Bool.and_eq_true, decide_eq_true_eq]
      exact hc
    unfold adaptStep
    dsimp only
    rw [if_pos hc, if_pos hcB]
    exact ⟨fun t => rfl, rfl, rfl, rfl, rfl, fun k _ => ⟨rfl, rfl, rfl⟩,
      fun k => ⟨rfl, rfl⟩, fun _ => rfl, Or.inl rfl⟩
  · have hcB : ¬ (adaptPrunes inputDense inc dec prune c y = true) := by
      simp only [adaptPrunes, Bool.and_eq_true, decide_eq_true_eq]
      exact hc
    unfold adaptStep
    dsimp only
    rw [if_neg hc, if_neg hcB]
    obtain ⟨u1, u2, u3, u4, u5, u6, u7, u8, u9, u10, u11, u12, u13⟩ :=
      updateSynapsePermanence_spec c y
        ((c.dataForSynapse y).permanence
          + (if inputDense.getD (c.dataForSynapse y).presynapticCell false then inc else -dec))
    by_cases hts : c.timeseries = true
    · rw [if_pos hts]
      by_cases hdiff :
          (if inputDense.getD (c.dataForSynapse y).presynapticCell false then inc else -dec)
            ≠ c.previousUpdates.getD y 0
      · rw [if_pos hdiff]
        refine ⟨fun t => u4 t, u1, u7, u2, rfl, fun k hk => u13 k hk,
          ?_, fun h => absurd h hcB, Or.inr ?_⟩
        · intro k
          by_cases hk : k = y
          · subst hk
            exact ⟨(u12 hy).2.1, (u12 hy).2.2⟩
          · exact ⟨(u13 k hk).2.1, (u13 k hk).2.2⟩
        · exact le_of_le_of_eq (le_max_right _ _) (u12 hy).1.symm
      · rw [if_neg hdiff]
        exact ⟨fun t => rfl, rfl, rfl, rfl, rfl, fun k _ => ⟨rfl, rfl, rfl⟩,
          fun k => ⟨rfl, rfl⟩, fun h => absurd h hcB, Or.inl rfl⟩
    · rw [if_neg hts]
      refine ⟨fun t => u4 t, u1, u7, u2, rfl, fun k hk => u13 k hk,
        ?_, fun h => absurd h hcB, Or.inr ?_⟩
      · intro k
        by_cases hk : k = y
        · subst hk
          exact ⟨(u12 hy).2.1, (u12 hy).2.2⟩
        · exact ⟨(u13 k hk).2.1, (u13 k hk).2.2⟩
      · exact le_of_le_of_eq (le_max_right _ _) (u12 hy).1.symm

/-- The first loop of `adaptSegment` (folding `adaptStep` over the
segment's synapses): the deferred-destruction output is exactly the
initial accumulator followed by the `adaptPrunes`-filter of the list; no
segment's synapse list changes; deferred synapses and untouched handles
keep their original permanence; every synapse keeps its presynaptic cell
and segment; and every permanence is unchanged or at least
`minPermanence`. -/
theorem adapt_pass (inputDense : List Bool) (inc dec : Permanence) (prune : Bool) :
    ∀ (l : List ℕ) (c : Connections) (dl0 : List ℕ),
      l.Nodup → (∀ y ∈ l, y < c.synapses.length) → (∀ y ∈ dl0, y ∉ l) →
      (∀ t, (l.foldl (adaptStep inputDense inc dec prune) (c, dl0)).1.synapsesForSegment t
          = c.synapsesForSegment t) ∧
        (l.foldl (adaptStep inputDense inc dec prune) (c, dl0)).1.synapses.length
          = c.synapses.length ∧
        (l.foldl (adaptStep inputDense inc dec prune) (c, dl0)).1.destroyedSegments
          = c.destroyedSegments ∧
        (l.foldl (adaptStep inputDense inc dec prune) (c, dl0)).1.segments.length
          = c.segments.length ∧
        (l.foldl (adaptStep inputDense inc dec prune) (c, dl0)).2
          = dl0 ++ l.filter (adaptPrunes inputDense inc dec prune c) ∧
        (∀ k, k ∉ l →
          ((l.foldl (adaptStep inputDense inc dec prune) (c, dl0)).1.dataForSynapse k).permanence
            = (c.dataForSynapse k).permanence) ∧
        (∀ y ∈ l, adaptPrunes inputDense inc dec prune c y = true →
          ((l.foldl (adaptStep inputDense inc dec prune) (c, dl0)).1.dataForSynapse y).permanence
            = (c.dataForSynapse y).permanence) ∧
        (∀ k,
          ((l.foldl (adaptStep inputDense inc dec prune) (c, dl0)).1.dataForSynapse k).presynapticCell
              = (c.dataForSynapse k).presynapticCell ∧
            ((l.foldl (adaptStep inputDense inc dec prune) (c, dl0)).1.dataForSynapse k).segment
              = (c.dataForSynapse k).segment) ∧
        (∀ k,
          ((l.foldl (adaptStep inputDense inc dec prune) (c, dl0)).1.dataForSynapse k).permanence
              = (c.dataForSynapse k).permanence ∨
            minPermanence
              ≤ ((l.foldl (adaptStep inputDense inc dec prune) (c, dl0)).1.dataForSynapse k).permanence) := by
  intro l
  induction l with
  | nil =>
    intro c dl0 _ _ _
    exact ⟨fun t => rfl, rfl, rfl, rfl, by simp, fun k _ => rfl, fun y hy => absurd hy
      (List.not_mem_nil y), fun k => ⟨rfl, rfl⟩, fun k => Or.inl rfl⟩
  | cons y0 rest ih =>
    intro c dl0 hnd hlen hdl0
    have hy0 : y0 < c.synapses.length := hlen y0 (List.mem_cons_self y0 rest)
    obtain ⟨e1, e2, e3, e4, e5, e6, e7, e8, e9⟩ :=
      adaptStep_effect inputDense inc dec prune c dl0 y0 hy0
    have hy0rest : y0 ∉ rest := (List.nodup_cons.mp hnd).1
    rw [List.foldl_cons]
    obtain ⟨i1, i2, i3, i4, i5, i6, i7, i8, i9⟩ :=
      ih (adaptStep inputDense inc dec prune (c, dl0) y0).1
        (adaptStep inputDense inc dec prune (c, dl0) y0).2
        (List.nodup_cons.mp hnd).2
        (fun y hy => e2 ▸ hlen y (List.mem_cons_of_mem y0 hy))
        (by
          intro y hy
          rw [e5] at hy
          by_cases hbp : adaptPrunes inputDense inc dec prune c y0 = true
          · rw [if_pos hbp] at hy
            rcases List.mem_append.mp hy with h | h
            · exact fun hr => hdl0 y h (List.mem_cons_of_mem y0 hr)
            · rw [List.mem_singleton.mp h]
              exact hy0rest
          · rw [if_neg hbp] at hy
            exact fun hr => hdl0 y hy (List.mem_cons_of_mem y0 hr))
    have hpredeq : ∀ x ∈ rest,
        adaptPrunes inputDense inc dec prune
            (adaptStep inputDense inc dec prune (c, dl0) y0).1 x
          = adaptPrunes inputDense inc dec prune c x := by
      intro x hx
      have hxne : x ≠ y0 := fun h => hy0rest (h ▸ hx)
      obtain ⟨q1, q2, q3⟩ := e6 x hxne
      unfold adaptPrunes
      rw [q1, q2]
    refine ⟨fun t => (i1 t).trans (e1 t), i2.trans e2, i3.trans e3, i4.trans e4,
      ?_, ?_, ?_, ?_, ?_⟩
    · rw [i5, List.filter_congr hpredeq, e5, List.filter_cons]
      by_cases hbp : adaptPrunes inputDense inc dec prune c y0 = true
      · rw [if_pos hbp, if_pos hbp, List.append_assoc, List.singleton_append]
      · rw [if_neg hbp, if_neg hbp]
    · intro k hk
      have hkne : k ≠ y0 := fun h => hk (h ▸ List.mem_cons_self y0 rest)
      have hkr : k ∉ rest := fun h => hk (List.mem_cons_of_mem y0 h)
      exact (i6 k hkr).trans (e6 k hkne).1
    · intro y hy hbp
      rcases List.mem_cons.mp hy with h | h
      · subst h
        exact (i6 y hy0rest).trans (e8 hbp)
      · have hbp' : adaptPrunes inputDense inc dec prune
            (adaptStep inputDense inc dec prune (c, dl0) y0).1 y = true :=
          (hpredeq y h).symm ▸ hbp
        have hyne : y ≠ y0 := fun heq => hy0rest (heq ▸ h)
        exact (i7 y h hbp').trans (e6 y hyne).1
    · intro k
      obtain ⟨q1, q2⟩ := i8 k
      obtain ⟨r1, r2⟩ := e7 k
      exact ⟨q1.trans r1, q2.trans r2⟩
    · intro k
      rcases i9 k with h | h
      · by_cases hk : k = y0
        · subst hk
          rcases e9 with h2 | h2
          · exact Or.inl (h.trans h2)
          · exact Or.inr (h ▸ h2)
        · exact Or.inl (h.trans (e6 k hk).1)
      · exact Or.inr h

/-- `adaptSegment` with pruning enabled is `adaptTail` on the (possibly
time-series-resized) state. -/
theorem adaptSegment_eq_tail (conn : Connections) (s : ℕ) (inputDense : List Bool)
    (inc dec : Permanence) (thresh : ℕ) :
    conn.adaptSegment s inputDense inc dec true thresh
      = if conn.timeseries then
          adaptTail { conn with
            previousUpdates := listResize conn.previousUpdates conn.synapses.length minPermanence,
            currentUpdates := listResize conn.currentUpdates conn.synapses.length minPermanence }
            s inputDense inc dec thresh
        else adaptTail conn s inputDense inc dec thresh := by
  unfold adaptSegment adaptTail
  by_cases hts : conn.timeseries = true
  · rw [if_pos hts, if_pos hts]
  · rw [if_neg hts, if_neg hts]

/-- The two loops and the final test of `adaptSegment` with pruning
enabled, on a well-formed segment: every synapse whose updated permanence
would fall strictly below `minPermanence + Epsilon` is gone from the
segment afterwards, and when the segment is not destroyed it retains at
least `segmentThreshold` synapses. -/
theorem adaptTail_spec (cb : Connections) (s : ℕ) (inputDense : List Bool)
    (inc dec : Permanence) (thresh : ℕ)
    (hnd : (cb.synapsesForSegment s).Nodup)
    (hwf : ∀ y ∈ cb.synapsesForSegment s,
      y < cb.synapses.length ∧ (cb.dataForSynapse y).permanence ≠ -1 ∧
        (cb.dataForSynapse y).segment = s)
    (hs : s < cb.segments.length) :
    (∀ y ∈ cb.synapsesForSegment s,
        (cb.dataForSynapse y).permanence
            + (if inputDense.getD (cb.dataForSynapse y).presynapticCell false
                then inc else -dec) < minPermanence + Epsilon →
        y ∉ (adaptTail cb s inputDense inc dec thresh).synapsesForSegment s) ∧
      (s ∉ (adaptTail cb s inputDense inc dec thresh).destroyedSegments →
        thresh ≤ ((adaptTail cb s inputDense inc dec thresh).synapsesForSegment s).length) := by
  obtain ⟨a1, a2, a3, a4, a5, a6, a7, a8, a9⟩ :=
    adapt_pass inputDense inc dec true (cb.synapsesForSegment s) cb []
      hnd (fun y hy => (hwf y hy).1) (fun y hy => absurd hy (List.not_mem_nil y))
  rw [List.nil_append] at a5
  obtain ⟨d1, d2, d3, d4, d5, d6, d7⟩ :=
    destroy_fold s ((cb.synapsesForSegment s).filter
        (adaptPrunes inputDense inc dec true cb))
      ((cb.synapsesForSegment s).foldl (adaptStep inputDense inc dec true) (cb, [])).1
      (List.Nodup.filter _ hnd)
      (by
        intro y hy
        obtain ⟨hyseg, hpred⟩ := List.mem_filter.mp hy
        obtain ⟨w1, w2, w3⟩ := hwf y hyseg
        refine ⟨?_, ?_, ?_, ?_⟩
        · rw [a1 s]; exact hyseg
        · rw [a2]; exact w1
        · rw [a7 y hyseg hpred]; exact w2
        · rw [(a8 y).2]; exact w3)
      (by rw [a1 s]; exact hnd)
      (by rw [a4]; exact hs)
  rw [← a5] at d1 d2 d3 d4 d5 d6 d7
  unfold adaptTail
  dsimp only
  split_ifs with hcond
  · have hysc2 : ∀ y ∈ (((cb.synapsesForSegment s).foldl
          (adaptStep inputDense inc dec true) (cb, [])).2.foldl
          (fun c y => c.destroySynapse y)
          ((cb.synapsesForSegment s).foldl (adaptStep inputDense inc dec true)
            (cb, [])).1).synapsesForSegment s,
        y < (((cb.synapsesForSegment s).foldl
          (adaptStep inputDense inc dec true) (cb, [])).2.foldl
          (fun c y => c.destroySynapse y)
          ((cb.synapsesForSegment s).foldl (adaptStep inputDense inc dec true)
            (cb, [])).1).synapses.length ∧
        ((((cb.synapsesForSegment s).foldl
          (adaptStep inputDense inc dec true) (cb, [])).2.foldl
          (fun c y => c.destroySynapse y)
          ((cb.synapsesForSegment s).foldl (adaptStep inputDense inc dec true)
            (cb, [])).1).dataForSynapse y).permanence ≠ -1 ∧
        ((((cb.synapsesForSegment s).foldl
          (adaptStep inputDense inc dec true) (cb, [])).2.foldl
          (fun c y => c.destroySynapse y)
          ((cb.synapsesForSegment s).foldl (adaptStep inputDense inc dec true)
            (cb, [])).1).dataForSynapse y).segment = s := by
      intro y hy
      obtain ⟨hyc, -⟩ := (d2 y).mp hy
      rw [a1 s] at hyc
      obtain ⟨w1, w2, w3⟩ := hwf y hyc
      refine ⟨?_, ?_, ?_⟩
      · rw [d5, a2]; exact w1
      · rw [(d4 y).1]
        rcases a9 y with h | h
        · rw [h]; exact w2
        · intro heq
          rw [heq] at h
          exact absurd h (by norm_num [minPermanence])
      · rw [(d4 y).2.2, (a8 y).2]; exact w3
    obtain ⟨hempty, hdest⟩ := destroySegment_segSyns _ s d6 hysc2 (by rw [d7, a4]; exact hs)
    refine ⟨?_, ?_⟩
    · intro y hy hcy hmem
      have hmem2 : y ∈ ((((cb.synapsesForSegment s).foldl
          (adaptStep inputDense inc dec true) (cb, [])).2.foldl
          (fun c y => c.destroySynapse y)
          ((cb.synapsesForSegment s).foldl (adaptStep inputDense inc dec true)
            (cb, [])).1).destroySegment s).synapsesForSegment s := hmem
      rw [hempty] at hmem2
      cases hmem2
    · intro hns
      exfalso
      apply hns
      have hmem3 : s ∈ ((((cb.synapsesForSegment s).foldl
          (adaptStep inputDense inc dec true) (cb, [])).2.foldl
          (fun c y => c.destroySynapse y)
          ((cb.synapsesForSegment s).foldl (adaptStep inputDense inc dec true)
            (cb, [])).1).destroySegment s).destroyedSegments := by
        rw [hdest]
        exact List.mem_append_right _ (List.mem_singleton.mpr rfl)
      exact hmem3
  · refine ⟨?_, ?_⟩
    · intro y hy hcy hmem
      obtain ⟨-, hnotdl⟩ := (d2 y).mp hmem
      apply hnotdl
      rw [a5]
      refine List.mem_filter.mpr ⟨hy, ?_⟩
      simp only [adaptPrunes, Bool.and_eq_true, decide_eq_true_eq]
      exact ⟨trivial, hcy⟩
    · intro _
      have hnl : ¬ ((((cb.synapsesForSegment s).foldl
          (adaptStep inputDense inc dec true) (cb, [])).2.foldl
          (fun c y => c.destroySynapse y)
          ((cb.synapsesForSegment s).foldl (adaptStep inputDense inc dec true)
            (cb, [])).1).synapsesForSegment s).length < thresh := by
        intro h
        exact hcond ⟨rfl, h⟩
      exact le_of_not_lt hnl

/-- C7 (amended): `adaptSegment` with `pruneZeroSynapses = true` destroys
every synapse of the segment whose updated permanence would fall STRICTLY
below `minPermanence + Epsilon` (the test at Connections.cpp:507-508 is
`<`, not the claimed "at most Epsilon"), and a segment left with fewer
than `segmentThreshold` synapses is destroyed within the same call: if
the segment is not on the destroyed free-list afterwards, it retains at
least `segmentThreshold` synapses. -/
theorem adaptSegment_prune_strict (conn : Connections) (s : ℕ) (inputDense : List Bool)
    (inc dec : Permanence) (thresh : ℕ)
    (hnd : (conn.synapsesForSegment s).Nodup)
    (hwf : ∀ y ∈ conn.synapsesForSegment s,
      y < conn.synapses.length ∧ (conn.dataForSynapse y).permanence ≠ -1 ∧
        (conn.dataForSynapse y).segment = s)
    (hs : s < conn.segments.length) :
    (∀ y ∈ conn.synapsesForSegment s,
        (conn.dataForSynapse y).permanence
            + (if inputDense.getD (conn.dataForSynapse y).presynapticCell false
                then inc else -dec) < minPermanence + Epsilon →
        y ∉ (conn.adaptSegment s inputDense inc dec true thresh).synapsesForSegment s) ∧
      (s ∉ (conn.adaptSegment s inputDense inc dec true thresh).destroyedSegments →
        thresh
          ≤ ((conn.adaptSegment s inputDense inc dec true thresh).synapsesForSegment s).length) := by
  rw [adaptSegment_eq_tail]
  by_cases hts : conn.timeseries = true
  · rw [if_pos hts]
    exact adaptTail_spec
      { conn with
        previousUpdates := listResize conn.previousUpdates conn.synapses.length minPermanence,
        currentUpdates := listResize conn.currentUpdates conn.synapses.length minPermanence }
      s inputDense inc dec thresh hnd hwf hs
  · rw [if_neg hts]
    exact adaptTail_spec conn s inputDense inc dec thresh hnd hwf hs

/-- A one-synapse state at the pruning boundary: the synapse's permanence
is `2·10⁻⁶`, so a decrement of `Epsilon` lands exactly on `Epsilon`. -/
def c7eps : Connections where
  cells := [⟨[0]⟩]
  segments := [⟨0, [0], 0⟩]
  destroyedSegments := []
  synapses := [⟨0, 0, mkRat 1 500000, 0⟩]
  destroyedSynapses := []
  potentialSynapsesForPresynapticCell := [(0, [0])]
  connectedSynapsesForPresynapticCell := []
  potentialSegmentsForPresynapticCell := [(0, [0])]
  connectedSegmentsForPresynapticCell := []
  connectedThreshold := mkRat 1 2
  iteration := 0
  timeseries := false
  previousUpdates := []
  currentUpdates := []
  prunedSyns := 0
  prunedSegs := 0

/-- C7 counterexample to "updated permanence at most Epsilon is
destroyed": on `c7eps`, with the input bit inactive and decrement
`Epsilon`, the updated permanence is exactly `Epsilon` (so ≤ Epsilon),
yet `adaptSegment` with pruning enabled KEEPS the synapse and writes
`Epsilon` — the source prunes only strictly below
`minPermanence + Epsilon`. -/
theorem adaptSegment_epsilon_boundary_kept :
    (c7eps.dataForSynapse 0).permanence
        + (if [false].getD (c7eps.dataForSynapse 0).presynapticCell false
            then Epsilon else -Epsilon) ≤ Epsilon ∧
      0 ∈ (c7eps.adaptSegment 0 [false] Epsilon Epsilon true 0).synapsesForSegment 0 ∧
      ((c7eps.adaptSegment 0 [false] Epsilon Epsilon true 0).dataForSynapse 0).permanence
        = Epsilon := by
  have hup : ([false].getD (c7eps.dataForSynapse 0).presynapticCell false) = false := by
    decide
  have hfalse : ¬ ((false : Bool) = true) := by decide
  have hcond : ¬ ((true : Bool) ∧ (c7eps.dataForSynapse 0).permanence
      + -Epsilon < minPermanence + Epsilon) := by
    norm_num [c7eps, dataForSynapse, minPermanence, Epsilon]
  have hsyn : c7eps.synapsesForSegment 0 = [0] := rfl
  obtain ⟨u1, u2, u3, u4, u5, u6, u7, u8, u9, u10, u11, u12, u13⟩ :=
    updateSynapsePermanence_spec c7eps 0
      ((c7eps.dataForSynapse 0).permanence + -Epsilon)
  have hstep : adaptStep [false] Epsilon Epsilon true (c7eps, []) 0
      = (c7eps.updateSynapsePermanence 0
          ((c7eps.dataForSynapse 0).permanence + -Epsilon), []) := by
    unfold adaptStep
    dsimp only
    rw [hup, if_neg hfalse, if_neg hcond,
      if_neg (by decide : ¬ (c7eps.timeseries = true))]
  have hfin : ¬ ((true : Bool)
      ∧ ((c7eps.updateSynapsePermanence 0
          ((c7eps.dataForSynapse 0).permanence
            + -Epsilon)).synapsesForSegment 0).length < 0) :=
    fun h => Nat.not_lt_zero _ h.2
  rw [hup, if_neg hfalse,
    adaptSegment_eq_tail, if_neg (by decide : ¬ (c7eps.timeseries = true))]
  unfold adaptTail
  dsimp only
  rw [hsyn, List.foldl_cons, List.foldl_nil, hstep]
  dsimp only
  rw [List.foldl_nil, if_neg hfin]
  refine ⟨?_, ?_, ?_⟩
  · norm_num [c7eps, dataForSynapse, Epsilon]
  · rw [u4 0, hsyn]
    exact List.mem_singleton.mpr rfl
  · rw [(u12 (by decide)).1]
    norm_num [c7eps, dataForSynapse, Epsilon, maxPermanence, minPermanence]

/-- A two-synapse segment for the C7 witness: synapse 0 (permanence 0.01)
will be pruned by a 0.1 decrement, synapse 1 (permanence 0.6) survives. -/
def c7wit : Connections where
  cells := [⟨[0]⟩]
  segments := [⟨0, [0, 1], 1⟩]
  destroyedSegments := []
  synapses := [⟨0, 0, mkRat 1 100, 0⟩, ⟨0, 0, mkRat 6 10, 0⟩]
  destroyedSynapses := []
  potentialSynapsesForPresynapticCell := [(0, [0])]
  connectedSynapsesForPresynapticCell := [(0, [1])]
  potentialSegmentsForPresynapticCell := [(0, [0])]
  connectedSegmentsForPresynapticCell := [(0, [0])]
  connectedThreshold := mkRat 1 2
  iteration := 0
  timeseries := false
  previousUpdates := []
  currentUpdates := []
  prunedSyns := 0
  prunedSegs := 0

/-- Witness for C7 on `c7wit`: synapse 0's updated permanence falls
strictly below `minPermanence + Epsilon`, so it is gone from the segment,
and the surviving segment keeps at least `segmentThreshold = 1`
synapses. -/
theorem adaptSegment_prune_strict_witness :
    (c7wit.synapsesForSegment 0).Nodup ∧
      0 ∈ c7wit.synapsesForSegment 0 ∧
      (c7wit.dataForSynapse 0).permanence
          + (if [false].getD (c7wit.dataForSynapse 0).presynapticCell false
              then (mkRat 1 10) else -(mkRat 1 10)) < minPermanence + Epsilon ∧
      0 ∉ (c7wit.adaptSegment 0 [false] (mkRat 1 10) (mkRat 1 10) true 1).synapsesForSegment 0 ∧
      (0 ∉ (c7wit.adaptSegment 0 [false] (mkRat 1 10) (mkRat 1 10) true 1).destroyedSegments →
        1 ≤ ((c7wit.adaptSegment 0 [false] (mkRat 1 10) (mkRat 1 10)
            true 1).synapsesForSegment 0).length) := by
  have hcy : (c7wit.dataForSynapse 0).permanence
      + (if [false].getD (c7wit.dataForSynapse 0).presynapticCell false
          then (mkRat 1 10) else -(mkRat 1 10)) < minPermanence + Epsilon := by
    norm_num [c7wit, dataForSynapse, minPermanence, Epsilon]
  obtain ⟨ha, hb⟩ := adaptSegment_prune_strict c7wit 0 [false] (mkRat 1 10) (mkRat 1 10) 1
    (by decide) (by decide) (by decide)
  exact ⟨by decide, by decide, hcy, ha 0 (by decide) hcy, hb⟩

/-- The C9 failing operation sequence, from a fresh 3-cell `Connections`
with `connectedThreshold = 0.3`: create a segment on cell 0 and one on
cell 1, create synapses (segment 0 ← cells 1 and 2, segment 1 ← cell 1)
at permanence 0.5 (all connected), destroy synapse 0, then call
`destroySynapse 0` a second time on the already-destroyed handle. -/
def c9final : Connections :=
  let c0 := Connections.init 3 (mkRat 3 10) false
  let r1 := c0.createSegment 0 10
  let r2 := r1.2.createSegment 1 10
  let r3 := r2.2.createSynapse 0 1 (mkRat 1 2)
  let r4 := r3.2.createSynapse 0 2 (mkRat 1 2)
  let r5 := r4.2.createSynapse 1 1 (mkRat 1 2)
  let r6 := r5.2.destroySynapse 0
  r6.destroySynapse 0

/-- Evaluation of the C9 operation sequence, one operation at a time. -/
theorem c9_eval : c9final =
    ⟨[⟨[0]⟩, ⟨[1]⟩, ⟨[]⟩], [⟨0, [1], 0⟩, ⟨1, [2], 1⟩], [],
      [⟨1, 0, mkRat 1 2, 0⟩, ⟨2, 0, mkRat 1 2, 0⟩, ⟨1, 1, mkRat 1 2, 0⟩], [0, 0],
      [(1, []), (2, [])], [(2, [1])], [(1, []), (2, [])], [(2, [0])],
      mkRat 299999 1000000, 0, false, [], [], 0, 0⟩ := by
  have h0 : Connections.init 3 (mkRat 3 10) false =
      ⟨[⟨[]⟩, ⟨[]⟩, ⟨[]⟩], [], [], [], [], [], [], [], [],
        mkRat 299999 1000000, 0, false, [], [], 0, 0⟩ := by
    norm_num [Connections.init, Epsilon, List.replicate]
  have h1 : (⟨[⟨[]⟩, ⟨[]⟩, ⟨[]⟩], [], [], [], [], [], [], [], [],
        mkRat 299999 1000000, 0, false, [], [], 0, 0⟩ : Connections).createSegment 0 10 =
      (0, ⟨[⟨[0]⟩, ⟨[]⟩, ⟨[]⟩], [⟨0, [], 0⟩], [], [], [], [], [], [], [],
        mkRat 299999 1000000, 0, false, [], [], 0, 0⟩) := by
    norm_num [createSegment, pruneLoop, segmentsForCell, allocSegment, numCells,
      Prod.ext_iff]
  have h2 : (⟨[⟨[0]⟩, ⟨[]⟩, ⟨[]⟩], [⟨0, [], 0⟩], [], [], [], [], [], [], [],
        mkRat 299999 1000000, 0, false, [], [], 0, 0⟩ : Connections).createSegment 1 10 =
      (1, ⟨[⟨[0]⟩, ⟨[1]⟩, ⟨[]⟩], [⟨0, [], 0⟩, ⟨1, [], 0⟩], [], [], [], [], [], [], [],
        mkRat 299999 1000000, 0, false, [], [], 0, 0⟩) := by
    norm_num [createSegment, pruneLoop, segmentsForCell, allocSegment, numCells,
      Prod.ext_iff]
  have h3 : (⟨[⟨[0]⟩, ⟨[1]⟩, ⟨[]⟩], [⟨0, [], 0⟩, ⟨1, [], 0⟩], [], [], [], [], [], [], [],
        mkRat 299999 1000000, 0, false, [], [], 0, 0⟩ : Connections).createSynapse 0 1
          (mkRat 1 2) =
      (0, ⟨[⟨[0]⟩, ⟨[1]⟩, ⟨[]⟩], [⟨0, [0], 1⟩, ⟨1, [], 0⟩], [],
        [⟨1, 0, mkRat 1 2, 0⟩], [], [(1, [])], [(1, [0])], [(1, [])], [(1, [0])],
        mkRat 299999 1000000, 0, false, [], [], 0, 0⟩) := by
    norm_num [createSynapse, synapsesForSegment, dataForSynapse, mapGetD, mapSet,
      mapContains, updateSynapsePermanence, removeSynapseFromPresynapticMap,
      inc32, dec32, Epsilon, maxPermanence, minPermanence, List.find?_cons,
      List.find?_nil, Prod.ext_iff]
  have h4 : (⟨[⟨[0]⟩, ⟨[1]⟩, ⟨[]⟩], [⟨0, [0], 1⟩, ⟨1, [], 0⟩], [],
        [⟨1, 0, mkRat 1 2, 0⟩], [], [(1, [])], [(1, [0])], [(1, [])], [(1, [0])],
        mkRat 299999 1000000, 0, false, [], [], 0, 0⟩ : Connections).createSynapse 0 2
          (mkRat 1 2) =
      (1, ⟨[⟨[0]⟩, ⟨[1]⟩, ⟨[]⟩], [⟨0, [0, 1], 2⟩, ⟨1, [], 0⟩], [],
        [⟨1, 0, mkRat 1 2, 0⟩, ⟨2, 0, mkRat 1 2, 0⟩], [],
        [(1, []), (2, [])], [(1, [0]), (2, [1])], [(1, []), (2, [])],
        [(1, [0]), (2, [0])],
        mkRat 299999 1000000, 0, false, [], [], 0, 0⟩) := by
    norm_num [createSynapse, synapsesForSegment, dataForSynapse, mapGetD, mapSet,
      mapContains, updateSynapsePermanence, removeSynapseFromPresynapticMap,
      inc32, dec32, Epsilon, maxPermanence, minPermanence, List.find?_cons,
      List.find?_nil, Prod.ext_iff]
  have h5 : (⟨[⟨[0]⟩, ⟨[1]⟩, ⟨[]⟩], [⟨0, [0, 1], 2⟩, ⟨1, [], 0⟩], [],
        [⟨1, 0, mkRat 1 2, 0⟩, ⟨2, 0, mkRat 1 2, 0⟩], [],
        [(1, []), (2, [])], [(1, [0]), (2, [1])], [(1, []), (2, [])],
        [(1, [0]), (2, [0])],
        mkRat 299999 1000000, 0, false, [], [], 0, 0⟩ : Connections).createSynapse 1 1
          (mkRat 1 2) =
      (2, ⟨[⟨[0]⟩, ⟨[1]⟩, ⟨[]⟩], [⟨0, [0, 1], 2⟩, ⟨1, [2], 1⟩], [],
        [⟨1, 0, mkRat 1 2, 0⟩, ⟨2, 0, mkRat 1 2, 0⟩, ⟨1, 1, mkRat 1 2, 1⟩], [],
        [(1, []), (2, [])], [(1, [0, 2]), (2, [1])], [(1, []), (2, [])],
        [(1, [0, 1]), (2, [0])],
        mkRat 299999 1000000, 0, false, [], [], 0, 0⟩) := by
    norm_num [createSynapse, synapsesForSegment, dataForSynapse, mapGetD, mapSet,
      mapContains, updateSynapsePermanence, removeSynapseFromPresynapticMap,
      inc32, dec32, Epsilon, maxPermanence, minPermanence, List.find?_cons,
      List.find?_nil, Prod.ext_iff]
  have h6 : (⟨[⟨[0]⟩, ⟨[1]⟩, ⟨[]⟩], [⟨0, [0, 1], 2⟩, ⟨1, [2], 1⟩], [],
        [⟨1, 0, mkRat 1 2, 0⟩, ⟨2, 0, mkRat 1 2, 0⟩, ⟨1, 1, mkRat 1 2, 1⟩], [],
        [(1, []), (2, [])], [(1, [0, 2]), (2, [1])], [(1, []), (2, [])],
        [(1, [0, 1]), (2, [0])],
        mkRat 299999 1000000, 0, false, [], [], 0, 0⟩ : Connections).destroySynapse 0 =
      ⟨[⟨[0]⟩, ⟨[1]⟩, ⟨[]⟩], [⟨0, [1], 1⟩, ⟨1, [2], 1⟩], [],
        [⟨1, 0, mkRat 1 2, 0⟩, ⟨2, 0, mkRat 1 2, 0⟩, ⟨1, 1, mkRat 1 2, 0⟩], [0],
        [(1, []), (2, [])], [(1, [2]), (2, [1])], [(1, []), (2, [])],
        [(1, [1]), (2, [0])],
        mkRat 299999 1000000, 0, false, [], [], 0, 0⟩ := by
    norm_num [destroySynapse, synapseExistsFast, dataForSynapse, mapGetD, mapSet,
      mapErase, mapContains, removeSynapseFromPresynapticMap, swapRemoveFirst,
      List.findIdx?_cons, List.findIdx?_nil, inc32, dec32, List.find?_cons,
      List.find?_nil]
  have h7 : (⟨[⟨[0]⟩, ⟨[1]⟩, ⟨[]⟩], [⟨0, [1], 1⟩, ⟨1, [2], 1⟩], [],
        [⟨1, 0, mkRat 1 2, 0⟩, ⟨2, 0, mkRat 1 2, 0⟩, ⟨1, 1, mkRat 1 2, 0⟩], [0],
        [(1, []), (2, [])], [(1, [2]), (2, [1])], [(1, []), (2, [])],
        [(1, [1]), (2, [0])],
        mkRat 299999 1000000, 0, false, [], [], 0, 0⟩ : Connections).destroySynapse 0 =
      ⟨[⟨[0]⟩, ⟨[1]⟩, ⟨[]⟩], [⟨0, [1], 0⟩, ⟨1, [2], 1⟩], [],
        [⟨1, 0, mkRat 1 2, 0⟩, ⟨2, 0, mkRat 1 2, 0⟩, ⟨1, 1, mkRat 1 2, 0⟩], [0, 0],
        [(1, []), (2, [])], [(2, [1])], [(1, []), (2, [])], [(2, [0])],
        mkRat 299999 1000000, 0, false, [], [], 0, 0⟩ := by
    norm_num [destroySynapse, synapseExistsFast, dataForSynapse, mapGetD, mapSet,
      mapErase, mapContains, removeSynapseFromPresynapticMap, swapRemoveFirst,
      List.findIdx?_cons, List.findIdx?_nil, inc32, dec32, List.find?_cons,
      List.find?_nil]
  unfold c9final
  dsimp only
  rw [h0, h1]
  dsimp only
  rw [h2]
  dsimp only
  rw [h3]
  dsimp only
  rw [h4]
  dsimp only
  rw [h5]
  dsimp only
  rw [h6, h7]

/-- C9: the cached `numConnected` invariant is violated by the sequence
`c9final`.  `destroySynapse` never writes the `-1` sentinel permanence
into the destroyed slot (despite the comment in `synapseExists_`,
Connections.cpp:210-233, which release-build callers rely on), so the
second `destroySynapse 0` passes the existence check and decrements
segment 0's `numConnected` again: afterwards segment 0 is live with
cached `numConnected = 0` but still holds exactly one connected
synapse. -/
theorem numConnected_cache_violated :
    c9final.liveSegment 0 ∧
      (c9final.segments.getD 0 default).numConnected = 0 ∧
      (c9final.synapsesForSegment 0).countP
          (fun y => decide (c9final.connectedThreshold
            ≤ (c9final.dataForSynapse y).permanence)) = 1 := by
  rw [c9_eval]
  refine ⟨by decide, rfl, ?_⟩
  norm_num [synapsesForSegment, dataForSynapse, List.countP, List.countP.go]

/-- Witness for C8: raising segment 0 of `connDup` to one connected
synapse. -/
theorem raisePermanencesToThreshold_witness :
    (connDup.synapsesForSegment 0).Nodup ∧ connDup.connectedThreshold ≤ 1 ∧
      min 1 (connDup.synapsesForSegment 0).length
        ≤ ((connDup.raisePermanencesToThreshold 0 1).synapsesForSegment 0).countP
            (fun y => decide ((connDup.raisePermanencesToThreshold 0 1).connectedThreshold
              ≤ ((connDup.raisePermanencesToThreshold 0 1).dataForSynapse y).permanence)) :=
  ⟨by decide, by decide,
    (raisePermanencesToThreshold_spec connDup 0 1 (by decide) (by decide) (by decide)
      (by decide)).1⟩

end Connections

/-- Witness for C3 on the concrete state `spTie.connections` with active
presynaptic cell 0. -/
theorem Connections.computeActivity_spec_witness :
    spTie.connections.ActivityWF [0] ∧ ([0] : List ℕ).Nodup ∧
      (((spTie.connections.computeActivity [0] false).1.length
          = spTie.connections.segments.length) ∧
        ∀ s, spTie.connections.liveSegment s →
          (spTie.connections.computeActivity [0] false).1.getD s 0
            = (spTie.connections.synapsesForSegment s).countP
                (fun y => decide (spTie.connections.connectedThreshold
                    ≤ (spTie.connections.dataForSynapse y).permanence)
                  && decide ((spTie.connections.dataForSynapse y).presynapticCell
                      ∈ ([0] : List ℕ)))) :=
  ⟨⟨by decide, by decide, by decide, by decide, by decide⟩, by decide,
    Connections.computeActivity_spec spTie.connections [0] false
      ⟨by decide, by decide, by decide, by decide, by decide⟩ (by decide)⟩

/-- Witness for C1 on the concrete pooler `spTie` with input bit 0 active. -/
theorem SpatialPooler.compute_overlaps_witness :
    spTie.connections.ActivityWF [0] ∧
      spTie.connections.segments.length = spTie.numColumns ∧
      (((spTie.compute [0] false).1.length = spTie.numColumns) ∧
        ∀ c, c < spTie.numColumns →
          (spTie.compute [0] false).1.getD c 0
            = (spTie.connections.synapsesForSegment c).countP
                (fun y => decide (spTie.connections.connectedThreshold
                    ≤ (spTie.connections.dataForSynapse y).permanence)
                  && decide ((spTie.connections.dataForSynapse y).presynapticCell
                      ∈ ([0] : List ℕ)))) :=
  ⟨⟨by decide, by decide, by decide, by decide, by decide⟩, by decide,
    SpatialPooler.compute_overlaps_spec spTie [0] false
      ⟨by decide, by decide, by decide, by decide, by decide⟩ (by decide) (by decide)
      (by decide)⟩

end Htm
